import Mathlib

/-!
Verification development for the rust-warc WARC codec.

The repository has two source files under `src/`:
* `src/parser.rs` — a nom-based grammar parser for WARC records
  (version line, header lines, length-framed body);
* `src/record.rs` — the typed record model (`Record`), raw records
  (`RawRecord`, `RawHeaderBlock`), the fallible raw→typed conversion,
  typed→raw synthesis (`into_raw_parts`), `Display` serialization, and the
  deferred-error `RecordBuilder`.

Auxiliary items the source references but whose files are absent from
`src/` (the `WarcHeader` key enum of `header.rs`, `RecordType`,
`TruncatedType`, the `Error` enum) are modelled from the spec, as are the
external collaborators (Rust `std` UTF-8 handling, integer parsing, and
chrono's RFC 3339 timestamps).  Bytes are modelled as `List Nat`
(values < 256); Rust `String`s are modelled as their UTF-8 byte lists.
-/

namespace RWarc

/-- Bytes of a record / header value: a Rust `&[u8]` or `Vec<u8>`. -/
abbrev Bytes := List Nat

/-- `is_header_token_char` from `src/parser.rs`: printable ASCII excluding
control bytes, high-bit bytes, and the separator set. -/
def isHeaderTokenChar (c : Nat) : Bool :=
  !(c ≤ 31 || 128 ≤ c || c = 40 || c = 41 || c = 60 || c = 62 || c = 64 ||
    c = 44 || c = 59 || c = 58 || c = 34 || c = 47 || c = 91 || c = 93 ||
    c = 63 || c = 61 || c = 123 || c = 125 || c = 32 || c = 92)

/-- nom `space0` character class: space or horizontal tab. -/
def isSpaceByte (c : Nat) : Bool := c = 32 || c = 9

/-- ASCII lowercasing of one byte (models Rust `to_lowercase` on the ASCII
strings produced by the token charset, which excludes high-bit bytes). -/
def asciiLower (c : Nat) : Nat := if 65 ≤ c ∧ c ≤ 90 then c + 32 else c

/-- Modelled from the spec: one step of UTF-8 decoding (external Rust
`std`): given a lead byte `b` and the following bytes `t`, the number of
continuation bytes of a well-formed sequence starting at `b`, or `none`
if no well-formed sequence starts here. -/
def utf8Len (b : Nat) (t : Bytes) : Option Nat :=
  if b < 128 then some 0
  else if 194 ≤ b ∧ b ≤ 223 then
    match t with
    | b2 :: _ => if 128 ≤ b2 ∧ b2 ≤ 191 then some 1 else none
    | _ => none
  else if 224 ≤ b ∧ b ≤ 239 then
    match t with
    | b2 :: b3 :: _ =>
      if (if b = 224 then 160 ≤ b2 ∧ b2 ≤ 191
          else if b = 237 then 128 ≤ b2 ∧ b2 ≤ 159
          else 128 ≤ b2 ∧ b2 ≤ 191) ∧ (128 ≤ b3 ∧ b3 ≤ 191) then some 2 else none
    | _ => none
  else if 240 ≤ b ∧ b ≤ 244 then
    match t with
    | b2 :: b3 :: b4 :: _ =>
      if (if b = 240 then 144 ≤ b2 ∧ b2 ≤ 191
          else if b = 244 then 128 ≤ b2 ∧ b2 ≤ 143
          else 128 ≤ b2 ∧ b2 ≤ 191) ∧ (128 ≤ b3 ∧ b3 ≤ 191) ∧ (128 ≤ b4 ∧ b4 ≤ 191)
      then some 3 else none
    | _ => none
  else none

/-- Fuelled worker for `utf8Valid`; the fuel is an upper bound on the
input length, consumed one sequence at a time. -/
def utf8ValidGo : Nat → Bytes → Bool
  | _, [] => true
  | 0, _ :: _ => false
  | f + 1, b :: t =>
    match utf8Len b t with
    | some n => utf8ValidGo f (t.drop n)
    | none => false

/-- Modelled from the spec: Rust `str::from_utf8` / `String::from_utf8`
validity (external `std`). -/
def utf8Valid (l : Bytes) : Bool := utf8ValidGo l.length l

/-- Fuelled worker for `utf8Lossy`. -/
def utf8LossyGo : Nat → Bytes → Bytes
  | _, [] => []
  | 0, l => l
  | f + 1, b :: t =>
    match utf8Len b t with
    | some n => b :: t.take n ++ utf8LossyGo f (t.drop n)
    | none => 239 :: 191 :: 189 :: utf8LossyGo f t

/-- Modelled from the spec: Rust `String::from_utf8_lossy` (external
`std`): well-formed sequences are kept, ill-formed bytes are replaced by
the UTF-8 encoding of U+FFFD. -/
def utf8Lossy (l : Bytes) : Bytes := utf8LossyGo l.length l

/-- Digits of `n` in reverse order as ASCII bytes (fuelled). -/
def digitsRevAux : Nat → Nat → Bytes
  | 0, _ => []
  | f + 1, n => if n < 10 then [48 + n] else (48 + n % 10) :: digitsRevAux f (n / 10)

/-- Modelled from the spec: Rust `format!("{}", n)` for an unsigned
integer (external `std`): the usual base-10 ASCII rendering. -/
def decimalBytes (n : Nat) : Bytes := (digitsRevAux (n + 1) n).reverse

/-- Digit-folding worker of unsigned decimal parsing. -/
def parseDigitsAcc : Bytes → Nat → Option Nat
  | [], acc => some acc
  | c :: t, acc =>
    if 48 ≤ c ∧ c ≤ 57 then parseDigitsAcc t (acc * 10 + (c - 48)) else none

/-- Modelled from the spec: Rust `str::parse::<u64>` / `parse::<usize>`
on a 64-bit target (external `std`): an optional leading `+`, then one
or more ASCII digits, failing on any other byte and on overflow past
`2^64 - 1`. -/
def parseU64 (s : Bytes) : Option Nat :=
  let s1 := match s with
    | c :: t => if c = 43 then t else c :: t
    | [] => []
  match s1 with
  | [] => none
  | _ =>
    match parseDigitsAcc s1 0 with
    | some v => if v < 2 ^ 64 then some v else none
    | none => none

/-- The UTF-8 bytes of an ASCII string literal (used to write concrete
byte inputs readably). -/
def strB (s : String) : Bytes := s.data.map Char.toNat

/-- Parse outcome: nom's `IResult`, with `Err::Incomplete` (streaming
"need more input") kept distinct from `Err::Error` (grammar failure). -/
inductive PR (α : Type) where
  | done (rest : Bytes) (val : α)
  | incomplete
  | fail
deriving DecidableEq, Repr

/-- Sequencing of parse results. -/
def PR.bind {α β : Type} : PR α → (Bytes → α → PR β) → PR β
  | .done r v, f => f r v
  | .incomplete, _ => .incomplete
  | .fail, _ => .fail

/-- The parser's two operating modes.  `src/parser.rs` instantiates the
grammar with nom's streaming combinators; the complete-buffer variants
are modelled from the spec (nom's `complete` modules): running out of
bytes mid-production is a hard failure instead of "need more input". -/
inductive Mode where
  | streaming
  | complete
deriving DecidableEq, Repr

namespace Parser

/-- nom `tag`: match a literal byte string. -/
def tagP (m : Mode) (t : Bytes) (i : Bytes) : PR Bytes :=
  if t.isPrefixOf i then .done (i.drop t.length) t
  else if i.isPrefixOf t then
    match m with
    | .streaming => .incomplete
    | .complete => .fail
  else .fail

/-- nom `take`: consume exactly `n` bytes. -/
def takeP (m : Mode) (n : Nat) (i : Bytes) : PR Bytes :=
  if n ≤ i.length then .done (i.drop n) (i.take n)
  else
    match m with
    | .streaming => .incomplete
    | .complete => .fail

/-- nom `take_while1`: longest nonempty prefix of bytes satisfying `p`.
In streaming mode, reaching the end of input while still matching is
"need more input". -/
def takeWhile1P (m : Mode) (p : Nat → Bool) (i : Bytes) : PR Bytes :=
  let pre := i.takeWhile p
  let rest := i.dropWhile p
  match rest with
  | [] =>
    match m with
    | .streaming => .incomplete
    | .complete => if pre.isEmpty then .fail else .done [] pre
  | _ => if pre.isEmpty then .fail else .done rest pre

/-- nom `space0`: any number of spaces and tabs. -/
def space0P (m : Mode) (i : Bytes) : PR Bytes :=
  let pre := i.takeWhile isSpaceByte
  let rest := i.dropWhile isSpaceByte
  match rest with
  | [] =>
    match m with
    | .streaming => .incomplete
    | .complete => .done [] pre
  | _ => .done rest pre

/-- nom `line_ending`: a bare line feed or carriage-return + line-feed. -/
def lineEndingP (m : Mode) (i : Bytes) : PR Bytes :=
  match i with
  | [] =>
    match m with
    | .streaming => .incomplete
    | .complete => .fail
  | c :: r =>
    if c = 10 then .done r [10]
    else if c = 13 then
      match r with
      | [] =>
        match m with
        | .streaming => .incomplete
        | .complete => .fail
      | c2 :: r2 => if c2 = 10 then .done r2 [13, 10] else .fail
    else .fail

/-- nom `not_line_ending`: everything up to (not including) the line
terminator; a carriage return not followed by a line feed is an error;
in streaming mode an input with no terminator yet is "need more input". -/
def notLineEndingP (m : Mode) (i : Bytes) : PR Bytes :=
  let pre := i.takeWhile (fun c => !(c = 13 || c = 10))
  let rest := i.dropWhile (fun c => !(c = 13 || c = 10))
  match rest with
  | [] =>
    match m with
    | .streaming => .incomplete
    | .complete => .done [] pre
  | c :: r =>
    if c = 13 then
      match r with
      | [] =>
        match m with
        | .streaming => .incomplete
        | .complete => .fail
      | c2 :: _ => if c2 = 10 then .done rest pre else .fail
    else .done rest pre

/-- Fuelled worker for nom `many1`: zero-or-more applications of `p`,
stopping at the first `fail`, propagating `incomplete`, and refusing
non-consuming iterations (nom's infinite-loop guard). -/
def many1Go {α : Type} (p : Bytes → PR α) : Nat → Bytes → PR (List α)
  | 0, _ => .fail
  | f + 1, i =>
    match p i with
    | .incomplete => .incomplete
    | .fail => .done i []
    | .done i2 v =>
      if i2.length < i.length then
        match many1Go p f i2 with
        | .done i3 vs => .done i3 (v :: vs)
        | r => r
      else .fail

/-- nom `many1`: at least one application of `p`; the first failure of
the first application is a hard failure. -/
def many1P {α : Type} (p : Bytes → PR α) (i : Bytes) : PR (List α) :=
  match many1Go p (i.length + 1) i with
  | .done _ [] => .fail
  | r => r

/-- The raw header tuple produced by `header` in `src/parser.rs`:
`(token, value, delim_left, delim_right)`. -/
abbrev HdrTuple := Bytes × Bytes × Bytes × Bytes

/-- The `WarcHeader` struct of `src/parser.rs` (key kept as its UTF-8
bytes). -/
structure WarcHeader where
  key : Bytes
  value : Bytes
  delimLeft : Bytes
  delimRight : Bytes
deriving DecidableEq, Repr

/-- The `WarcRecord` struct of `src/parser.rs`. -/
structure WarcRecord where
  version : Bytes
  headers : List WarcHeader
  body : Bytes
deriving DecidableEq, Repr

/-- `version` from `src/parser.rs`:
`delimited(tag("WARC/"), not_line_ending, line_ending)`. -/
def version (m : Mode) (i : Bytes) : PR Bytes :=
  PR.bind (tagP m (strB "WARC/") i) fun i1 _ =>
  PR.bind (notLineEndingP m i1) fun i2 v =>
  PR.bind (lineEndingP m i2) fun i3 _ =>
  .done i3 v

/-- `header` from `src/parser.rs`: token, optional spaces, colon,
optional spaces, value, line terminator. -/
def header (m : Mode) (i : Bytes) : PR HdrTuple :=
  PR.bind (takeWhile1P m isHeaderTokenChar i) fun i1 token =>
  PR.bind (space0P m i1) fun i2 delimLeft =>
  PR.bind (tagP m [58] i2) fun i3 _ =>
  PR.bind (space0P m i3) fun i4 delimRight =>
  PR.bind (notLineEndingP m i4) fun i5 value =>
  PR.bind (lineEndingP m i5) fun i6 _ =>
  .done i6 (token, value, delimLeft, delimRight)

/-- The ASCII bytes of `"content-length"`. -/
def contentLengthKey : Bytes := strB "content-length"

/-- Conversion of one parsed tuple into the parser's `WarcHeader`
struct. -/
def mkHdr : HdrTuple → WarcHeader
  | (k, v, dl, dr) => ⟨k, v, dl, dr⟩

/-- The post-`many1` loop of `headers` in `src/parser.rs`: checks each
key is UTF-8; the first key equal to `content-length` case-insensitively
has its value checked as UTF-8 and parsed as a `usize` (later
occurrences are pushed unexamined); every line is retained in order. -/
def headersFold : List HdrTuple → Option Nat → Option (List WarcHeader × Nat)
  | [], cl => some ([], cl.getD 0)
  | (k, v, dl, dr) :: t, cl =>
    if utf8Valid k then
      if cl = none ∧ k.map asciiLower = contentLengthKey then
        if utf8Valid v then
          match parseU64 v with
          | some len =>
            match headersFold t (some len) with
            | some (l, n) => some (mkHdr (k, v, dl, dr) :: l, n)
            | none => none
          | none => none
        else none
      else
        match headersFold t cl with
        | some (l, n) => some (mkHdr (k, v, dl, dr) :: l, n)
        | none => none
    else none

/-- `headers` from `src/parser.rs`: `many1(header)` followed by the
content-length discovery loop; a missing content-length header defaults
the framing length to zero. -/
def headers (m : Mode) (i : Bytes) : PR (List WarcHeader × Nat) :=
  PR.bind (many1P (header m) i) fun i1 hs =>
  match headersFold hs none with
  | some r => .done i1 r
  | none => .fail

/-- `record` from `src/parser.rs`: version, headers, one terminator, a
body of exactly the declared length, then two terminators. -/
def record (m : Mode) (i : Bytes) : PR WarcRecord :=
  PR.bind (version m i) fun i1 ver =>
  PR.bind (headers m i1) fun i2 hl =>
  PR.bind (lineEndingP m i2) fun i3 _ =>
  PR.bind (takeP m hl.2 i3) fun i4 body =>
  PR.bind (lineEndingP m i4) fun i5 _ =>
  PR.bind (lineEndingP m i5) fun i6 _ =>
  .done i6 ⟨ver, hl.1, body⟩

end Parser

/-- Modelled from the spec: the `WarcHeader` key enum of `header.rs`
(file absent from `src/`): a closed vocabulary of canonical header
identities plus an extension variant carrying the original token text;
only the variants exercised by `src/record.rs` are enumerated. -/
inductive WarcHeader where
  | contentLength
  | warcType
  | recordID
  | date
  | truncated
  | targetURI
  | other (name : Bytes)
deriving DecidableEq, Repr

/-- Canonical rendering (`to_string`) of a header key: the standard's
canonical casing for known identities, the original text for extension
identities. -/
def WarcHeader.toBytes : WarcHeader → Bytes
  | .contentLength => strB "Content-Length"
  | .warcType => strB "WARC-Type"
  | .recordID => strB "WARC-Record-ID"
  | .date => strB "WARC-Date"
  | .truncated => strB "WARC-Truncated"
  | .targetURI => strB "WARC-Target-URI"
  | .other name => name

/-- The case-folded name used for equality and hashing of header keys. -/
def WarcHeader.lowerName (h : WarcHeader) : Bytes := h.toBytes.map asciiLower

/-- Case-insensitive header-key equality (the `Eq`/`Hash` of the key
enum). -/
def keyEqb (a b : WarcHeader) : Bool := decide (a.lowerName = b.lowerName)

/-- The header map of a record: `HashMap<WarcHeader, Vec<u8>>` with the
case-insensitive key equality, embedded as an association list holding
at most one entry per canonical key. -/
abbrev HMap := List (WarcHeader × Bytes)

/-- `HashMap::get`. -/
def lookupH (k : WarcHeader) : HMap → Option Bytes
  | [] => none
  | p :: t => if keyEqb p.1 k then some p.2 else lookupH k t

/-- `HashMap::insert` (value replaced in place, key kept; appended when
absent). -/
def insertH (k : WarcHeader) (v : Bytes) : HMap → HMap
  | [] => [(k, v)]
  | p :: t => if keyEqb p.1 k then (p.1, v) :: t else p :: insertH k v t

/-- The removal part of `HashMap::remove`. -/
def eraseH (k : WarcHeader) : HMap → HMap
  | [] => []
  | p :: t => if keyEqb p.1 k then t else p :: eraseH k t

/-- `HashMap::extend`: union in every entry of `l`, overwriting
same-keyed values. -/
def extendH (m : HMap) (l : HMap) : HMap :=
  l.foldl (fun acc p => insertH p.1 p.2 acc) m

/-- Modelled from the spec: the chrono `DateTime<Utc>` of the record
model (external library), as broken-down civil UTC fields.  The model
restricts years to the four-digit range the second-precision RFC 3339
output uses, and does not model leap seconds. -/
structure DateTimeUtc where
  year : Nat
  month : Nat
  day : Nat
  hour : Nat
  minute : Nat
  second : Nat
  nanos : Nat
deriving DecidableEq, Repr

def isLeapYear (y : Nat) : Bool := y % 4 = 0 && (y % 100 ≠ 0 || y % 400 = 0)

def daysInMonth (y m : Nat) : Nat :=
  if m = 2 then (if isLeapYear y then 29 else 28)
  else if m = 4 ∨ m = 6 ∨ m = 9 ∨ m = 11 then 30
  else 31

/-- Validity of civil date-time fields (chrono constructs only valid
date-times). -/
def validFields (y mo d h mi s : Nat) : Bool :=
  decide (1 ≤ mo ∧ mo ≤ 12 ∧ 1 ≤ d ∧ d ≤ daysInMonth y mo ∧
    h ≤ 23 ∧ mi ≤ 59 ∧ s ≤ 59 ∧ y ≤ 9999)

def pad2 (n : Nat) : Bytes := [48 + n / 10, 48 + n % 10]

def pad4 (n : Nat) : Bytes :=
  [48 + n / 1000, 48 + n / 100 % 10, 48 + n / 10 % 10, 48 + n % 10]

/-- Modelled from the spec: chrono
`to_rfc3339_opts(SecondsFormat::Secs, true)` (external): RFC 3339 with
second precision and the explicit `Z` UTC designator. -/
def toRfc3339Secs (d : DateTimeUtc) : Bytes :=
  pad4 d.year ++ [45] ++ pad2 d.month ++ [45] ++ pad2 d.day ++ [84] ++
    pad2 d.hour ++ [58] ++ pad2 d.minute ++ [58] ++ pad2 d.second ++ [90]

def readDigit (c : Nat) : Option Nat :=
  if 48 ≤ c ∧ c ≤ 57 then some (c - 48) else none

def read2 : Bytes → Option (Nat × Bytes)
  | a :: b :: r =>
    match readDigit a, readDigit b with
    | some x, some y => some (x * 10 + y, r)
    | _, _ => none
  | _ => none

def read4 : Bytes → Option (Nat × Bytes)
  | a :: b :: c :: e :: r =>
    match readDigit a, readDigit b, readDigit c, readDigit e with
    | some x, some y, some z, some w => some (((x * 10 + y) * 10 + z) * 10 + w, r)
    | _, _, _, _ => none
  | _ => none

def expectByte (c : Nat) : Bytes → Option Bytes
  | b :: r => if b = c then some r else none
  | [] => none

/-- Fractional seconds after the dot: one or more digits, of which the
first nine are kept as nanoseconds. -/
def readFrac (s : Bytes) : Option (Nat × Bytes) :=
  let digits := s.takeWhile (fun c => decide (48 ≤ c ∧ c ≤ 57))
  let rest := s.dropWhile (fun c => decide (48 ≤ c ∧ c ≤ 57))
  if digits.isEmpty then none
  else
    let kept := digits.take 9
    let v := kept.foldl (fun acc c => acc * 10 + (c - 48)) 0
    some (v * 10 ^ (9 - kept.length), rest)

/-- Days since 1970-01-01 of a civil date (standard civil-calendar
conversion, used only to renormalize nonzero offsets to UTC). -/
def daysFromCivil (y m d : Int) : Int :=
  let y2 := if m ≤ 2 then y - 1 else y
  let era := y2.ediv 400
  let yoe := y2 - era * 400
  let doy := (153 * (if 2 < m then m - 3 else m + 9) + 2).ediv 5 + d - 1
  let doe := yoe * 365 + yoe.ediv 4 - yoe.ediv 100 + doy
  era * 146097 + doe - 719468

/-- Civil date of a number of days since 1970-01-01 (inverse of
`daysFromCivil`). -/
def civilFromDays (z0 : Int) : Int × Int × Int :=
  let z := z0 + 719468
  let era := z.ediv 146097
  let doe := z - era * 146097
  let yoe := (doe - doe.ediv 1460 + doe.ediv 36524 - doe.ediv 146096).ediv 365
  let y := yoe + era * 400
  let doy := doe - (365 * yoe + yoe.ediv 4 - yoe.ediv 100)
  let mp := (5 * doy + 2).ediv 153
  let d := doy - (153 * mp + 2).ediv 5 + 1
  let m := if mp < 10 then mp + 3 else mp - 9
  (if m ≤ 2 then y + 1 else y, m, d)

/-- Renormalization of parsed fields with a nonzero offset to UTC. -/
def shiftFields (y mo d h mi s nanos : Nat) (offSecs : Int) : Option DateTimeUtc :=
  let tot : Int := daysFromCivil y mo d * 86400 + (h * 3600 + mi * 60 + s : Nat) - offSecs
  let dd := tot.ediv 86400
  let rem := tot.emod 86400
  let c := civilFromDays dd
  if 0 ≤ c.1 ∧ c.1 ≤ 9999 then
    some ⟨c.1.toNat, c.2.1.toNat, c.2.2.toNat, (rem.ediv 3600).toNat,
      (rem.emod 3600).toNat / 60, (rem.emod 60).toNat, nanos⟩
  else none

/-- Two digits, a colon, two digits: the `hh:mm` magnitude of a numeric
offset, in seconds. -/
def readOffsetHM (s : Bytes) : Option (Nat × Bytes) :=
  match read2 s with
  | none => none
  | some (oh, ra) =>
    match expectByte 58 ra with
    | none => none
    | some rb =>
      match read2 rb with
      | none => none
      | some (om, rc) =>
        if oh ≤ 23 ∧ om ≤ 59 then some (oh * 3600 + om * 60, rc) else none

/-- The offset designator: `Z`/`z`, or `±hh:mm` as signed seconds. -/
def readOffset (s : Bytes) : Option (Int × Bytes) :=
  match s with
  | [] => none
  | b :: r =>
    if b = 90 ∨ b = 122 then some (0, r)
    else if b = 43 then
      match readOffsetHM r with
      | some (off, rc) => some ((off : Int), rc)
      | none => none
    else if b = 45 then
      match readOffsetHM r with
      | some (off, rc) => some (-(off : Int), rc)
      | none => none
    else none

/-- Optional fractional-second part: a dot followed by digits, else
zero nanoseconds. -/
def readOptFrac (s : Bytes) : Option (Nat × Bytes) :=
  match s with
  | [] => some (0, [])
  | b :: r => if b = 46 then readFrac r else some (0, b :: r)

/-- `NNNN-NN-NN` of an RFC 3339 date. -/
def readDatePart (s : Bytes) : Option (Nat × Nat × Nat × Bytes) :=
  (read4 s).bind fun p1 =>
  (expectByte 45 p1.2).bind fun r2 =>
  (read2 r2).bind fun p2 =>
  (expectByte 45 p2.2).bind fun r4 =>
  (read2 r4).bind fun p3 =>
  some (p1.1, p2.1, p3.1, p3.2)

/-- `NN:NN:NN` of an RFC 3339 time. -/
def readTimePart (s : Bytes) : Option (Nat × Nat × Nat × Bytes) :=
  (read2 s).bind fun p1 =>
  (expectByte 58 p1.2).bind fun r2 =>
  (read2 r2).bind fun p2 =>
  (expectByte 58 p2.2).bind fun r4 =>
  (read2 r4).bind fun p3 =>
  some (p1.1, p2.1, p3.1, p3.2)

/-- The `T`/`t` date-time separator. -/
def readSep (s : Bytes) : Option Bytes :=
  match s with
  | [] => none
  | b :: r => if b = 84 ∨ b = 116 then some r else none

/-- Modelled from the spec: chrono `DateTime::parse_from_rfc3339`
followed by conversion into `Utc` (external): full date, `T` or `t`,
time, optional fractional seconds, and a `Z`/`z` or `±hh:mm` offset,
with the result normalized to UTC. -/
def parseRfc3339 (s : Bytes) : Option DateTimeUtc :=
  (readDatePart s).bind fun pd =>
  (readSep pd.2.2.2).bind fun r6 =>
  (readTimePart r6).bind fun pt =>
  (readOptFrac pt.2.2.2).bind fun pf =>
  (readOffset pf.2).bind fun po =>
  match po.2 with
  | [] =>
    if validFields pd.1 pd.2.1 pd.2.2.1 pt.1 pt.2.1 pt.2.2.1 then
      if po.1 = 0 then
        some ⟨pd.1, pd.2.1, pd.2.2.1, pt.1, pt.2.1, pt.2.2.1, pf.1⟩
      else shiftFields pd.1 pd.2.1 pd.2.2.1 pt.1 pt.2.1 pt.2.2.1 pf.1 po.1
    else none
  | _ => none

/-- Modelled from the spec: the `RecordType` vocabulary of
`record_type.rs` (file absent from `src/`): the standard record types
plus a fallback variant carrying the original text. -/
inductive RecordType where
  | warcinfo
  | response
  | resource
  | request
  | metadata
  | revisit
  | conversion
  | continuation
  | other (name : Bytes)
deriving DecidableEq, Repr

/-- `to_string` of a record type. -/
def RecordType.toBytes : RecordType → Bytes
  | .warcinfo => strB "warcinfo"
  | .response => strB "response"
  | .resource => strB "resource"
  | .request => strB "request"
  | .metadata => strB "metadata"
  | .revisit => strB "revisit"
  | .conversion => strB "conversion"
  | .continuation => strB "continuation"
  | .other name => name

/-- `From<&str>` of a record type: recognized names map to their
variant, anything else to the fallback. -/
def RecordType.ofBytes (s : Bytes) : RecordType :=
  if s = strB "warcinfo" then .warcinfo
  else if s = strB "response" then .response
  else if s = strB "resource" then .resource
  else if s = strB "request" then .request
  else if s = strB "metadata" then .metadata
  else if s = strB "revisit" then .revisit
  else if s = strB "conversion" then .conversion
  else if s = strB "continuation" then .continuation
  else .other s

/-- Modelled from the spec: the `TruncatedType` vocabulary of
`truncated_type.rs` (file absent from `src/`). -/
inductive TruncatedType where
  | length
  | time
  | disconnect
  | unspecified
  | other (name : Bytes)
deriving DecidableEq, Repr

def TruncatedType.toBytes : TruncatedType → Bytes
  | .length => strB "length"
  | .time => strB "time"
  | .disconnect => strB "disconnect"
  | .unspecified => strB "unspecified"
  | .other name => name

def TruncatedType.ofBytes (s : Bytes) : TruncatedType :=
  if s = strB "length" then .length
  else if s = strB "time" then .time
  else if s = strB "disconnect" then .disconnect
  else if s = strB "unspecified" then .unspecified
  else .other s

/-- Modelled from the spec: the crate's `Error` enum (file absent from
`src/`), restricted to the variants `src/record.rs` constructs. -/
inductive WarcError where
  | missingHeader (h : WarcHeader)
  | malformedHeader (h : WarcHeader) (msg : String)
deriving DecidableEq, Repr

/-- `RawHeaderBlock` from `src/record.rs`: a version string plus the
canonical-key header map. -/
structure RawHeaderBlock where
  version : Bytes
  headers : HMap
deriving DecidableEq, Repr

/-- `RawRecord` from `src/record.rs`. -/
structure RawRecord where
  headers : RawHeaderBlock
  body : Bytes
deriving DecidableEq, Repr

/-- `Record<BufferedBody>` from `src/record.rs`.  The `headers` block is
the residual extension-header map (source invariant: it does not contain
the promoted keys). -/
structure Record where
  headers : RawHeaderBlock
  recordDate : DateTimeUtc
  recordId : Bytes
  recordType : RecordType
  truncatedType : Option TruncatedType
  body : Bytes
deriving DecidableEq, Repr

/-- `Record::default()`, parameterized by the effects it performs
(`Utc::now()` and `generate_record_id()`). -/
def Record.mkDefault (now : DateTimeUtc) (freshId : Bytes) : Record :=
  { headers := { version := strB "WARC/1.0", headers := [] }
    recordDate := now
    recordId := freshId
    recordType := .resource
    truncatedType := none
    body := [] }

/-- `Record::parse_content_length`. -/
def Record.parse_content_length (len : Bytes) : Except WarcError Nat :=
  match parseU64 len with
  | some n => .ok n
  | none =>
    .error (.malformedHeader .contentLength "not an integer between 0 and 2^64-1")

/-- `Record::parse_record_date`. -/
def Record.parse_record_date (date : Bytes) : Except WarcError DateTimeUtc :=
  match parseRfc3339 date with
  | some d => .ok d
  | none => .error (.malformedHeader .date "not an ISO 8601 datestamp")

/-- `Record::content_length`: derived from the body, never stored. -/
def Record.content_length (r : Record) : Nat := r.body.length

/-- `Record::into_raw_parts`: synthesizes the typed fields back into the
header map (content-length re-derived from the body, the date with
second precision) and returns it with the body. -/
def Record.intoRawParts (r : Record) : RawHeaderBlock × Bytes :=
  let m1 := insertH .contentLength (decimalBytes r.body.length) r.headers.headers
  let m2 := insertH .warcType r.recordType.toBytes m1
  let m3 := insertH .recordID r.recordId m2
  let m4 :=
    match r.truncatedType with
    | some t => insertH .truncated t.toBytes m3
    | none => m3
  let m5 := insertH .date (toRfc3339Secs r.recordDate) m4
  ({ version := r.headers.version, headers := m5 }, r.body)

/-- The condition of the `debug_assert!` in `into_raw_parts`: none of
the promoted keys was already present in the residual map (the truncated
key is only checked when the field is set, since only then does the
insert happen). -/
def Record.rawPartsAssertOk (r : Record) : Bool :=
  (lookupH .contentLength r.headers.headers).isNone &&
  (lookupH .warcType r.headers.headers).isNone &&
  (lookupH .recordID r.headers.headers).isNone &&
  (match r.truncatedType with
   | some _ => (lookupH .truncated r.headers.headers).isNone
   | none => true) &&
  (lookupH .date r.headers.headers).isNone

/-- `Record::header`: the four synthesized fields are rendered from the
typed state; everything else is looked up in the residual map (whose
value the source decodes with `String::from_utf8(...).unwrap()`). -/
def Record.header (r : Record) (h : WarcHeader) : Option Bytes :=
  match h with
  | .contentLength => some (decimalBytes r.content_length)
  | .recordID => some r.recordId
  | .warcType => some r.recordType.toBytes
  | .date => some (toRfc3339Secs r.recordDate)
  | _ => lookupH h r.headers.headers

/-- Whether the `String::from_utf8(...).unwrap()` in `Record::header`
would succeed for key `h` of record `r`. -/
def Record.headerDecodes (r : Record) (h : WarcHeader) : Bool :=
  match h with
  | .contentLength => true
  | .recordID => true
  | .warcType => true
  | .date => true
  | _ =>
    match lookupH h r.headers.headers with
    | some v => utf8Valid v
    | none => true

/-- `Record::set_header`: the typed fields validate (date) or check
consistency (content-length); the rest replaces the map entry, returning
the prior value. -/
def Record.setHeader (r : Record) (h : WarcHeader) (v : Bytes) :
    Except WarcError (Option Bytes × Record) :=
  match h with
  | .date =>
    match Record.parse_record_date v with
    | .error e => .error e
    | .ok d => .ok (some (toRfc3339Secs r.recordDate), { r with recordDate := d })
  | .recordID => .ok (some r.recordId, { r with recordId := v })
  | .warcType =>
    .ok (some r.recordType.toBytes, { r with recordType := RecordType.ofBytes v })
  | .truncated =>
    .ok (r.truncatedType.map TruncatedType.toBytes,
      { r with truncatedType := some (TruncatedType.ofBytes v) })
  | .contentLength =>
    match Record.parse_content_length v with
    | .error e => .error e
    | .ok n =>
      if n ≠ r.content_length then
        .error (.malformedHeader .contentLength "content length != body size")
      else .ok (some v, r)
  | _ =>
    .ok (lookupH h r.headers.headers,
      { r with headers := { r.headers with headers := insertH h v r.headers.headers } })

/-- `Record::replace_body`. -/
def Record.replaceBody (r : Record) (newBody : Bytes) : Record :=
  { r with body := newBody }

/-- `Record::set_truncated_type`. -/
def Record.setTruncatedType (r : Record) (t : TruncatedType) : Record :=
  { r with truncatedType := some t }

/-- The content-length step of `TryFrom<RawRecord>`: remove the header,
require UTF-8, an integer, and equality with the body length.  The
`WarcHeader::Date` in the UTF-8 error mirrors the source. -/
def checkContentLength (m : HMap) (body : Bytes) : Except WarcError HMap :=
  match lookupH .contentLength m with
  | none => .error (.missingHeader .contentLength)
  | some clv =>
    if utf8Valid clv then
      match Record.parse_content_length clv with
      | .error e => .error e
      | .ok len =>
        if len = body.length then .ok (eraseH .contentLength m)
        else .error (.malformedHeader .contentLength "content length != body length")
    else .error (.malformedHeader .date "not a UTF-8 string")

/-- The record-type step of `TryFrom<RawRecord>`: remove the header,
require UTF-8, map through the (total) type vocabulary. -/
def checkWarcType (m : HMap) : Except WarcError (RecordType × HMap) :=
  match lookupH .warcType m with
  | none => .error (.missingHeader .warcType)
  | some tv =>
    if utf8Valid tv then .ok (RecordType.ofBytes tv, eraseH .warcType m)
    else .error (.malformedHeader .warcType "not a UTF-8 string")

/-- The record-id step of `TryFrom<RawRecord>`: remove the header and
require UTF-8 (the `WarcHeader::Date` in the error mirrors the source). -/
def checkRecordID (m : HMap) : Except WarcError (Bytes × HMap) :=
  match lookupH .recordID m with
  | none => .error (.missingHeader .recordID)
  | some idv =>
    if utf8Valid idv then .ok (idv, eraseH .recordID m)
    else .error (.malformedHeader .date "not a UTF-8 string")

/-- The date step of `TryFrom<RawRecord>`: remove the header, require
UTF-8 and an RFC 3339 timestamp. -/
def checkDate (m : HMap) : Except WarcError (DateTimeUtc × HMap) :=
  match lookupH .date m with
  | none => .error (.missingHeader .date)
  | some dv =>
    if utf8Valid dv then
      match Record.parse_record_date dv with
      | .error e => .error e
      | .ok rdate => .ok (rdate, eraseH .date m)
    else .error (.malformedHeader .date "not a UTF-8 string")

/-- `impl TryFrom<RawRecord> for Record<BufferedBody>`: fixed-order
validation (content-length, record-type, record-id, date) stopping at
the first failure; each examined header is removed from the map; the
remaining fields come from `..Default::default()` (`truncated_type`
becomes `None`). -/
def tryFromRaw (raw : RawRecord) : Except WarcError Record :=
  match checkContentLength raw.headers.headers raw.body with
  | .error e => .error e
  | .ok m1 =>
    match checkWarcType m1 with
    | .error e => .error e
    | .ok (rtype, m2) =>
      match checkRecordID m2 with
      | .error e => .error e
      | .ok (idv, m3) =>
        match checkDate m3 with
        | .error e => .error e
        | .ok (rdate, m4) =>
          .ok { headers := { version := raw.headers.version, headers := m4 }
                recordDate := rdate
                recordId := idv
                recordType := rtype
                truncatedType := none
                body := raw.body }

/-- `RecordBuilder` from `src/record.rs`. -/
structure RecordBuilder where
  value : Record
  broken : HMap
  lastError : Option WarcError
deriving DecidableEq, Repr

/-- `RecordBuilder::default()`, parameterized like `Record.mkDefault`. -/
def RecordBuilder.mkDefault (now : DateTimeUtc) (freshId : Bytes) : RecordBuilder :=
  { value := Record.mkDefault now freshId, broken := [], lastError := none }

/-- `RecordBuilder::header`: the raw bytes are first recorded in the
broken-header table; a UTF-8-decodable value is pushed through the typed
setter, and on success the broken entry is removed again; on any failure
the remembered error is overwritten. -/
def RecordBuilder.header (b : RecordBuilder) (k : WarcHeader) (v : Bytes) :
    RecordBuilder :=
  let broken1 := insertH k v b.broken
  if utf8Valid v then
    match b.value.setHeader k v with
    | .ok (_, r') => { value := r', broken := eraseH k broken1, lastError := b.lastError }
    | .error e => { value := b.value, broken := broken1, lastError := some e }
  else
    { value := b.value, broken := broken1,
      lastError := some (.malformedHeader k "not a UTF-8 string") }

/-- `RecordBuilder::build_raw`: always succeeds; synthesizes the typed
record's raw form and unions in every broken-header entry verbatim. -/
def RecordBuilder.buildRaw (b : RecordBuilder) : RawHeaderBlock × Bytes :=
  let p := b.value.intoRawParts
  ({ version := p.1.version, headers := extendH p.1.headers b.broken }, p.2)

/-- `RecordBuilder::build`: fails with the remembered error if there is
one, otherwise yields the typed record. -/
def RecordBuilder.build (b : RecordBuilder) : Except WarcError Record :=
  match b.lastError with
  | some e => .error e
  | none => .ok b.value

/-- The mutating operations of the typed record's public interface
(`src/record.rs` setters; `mutBody` is an in-place edit through
`body_mut`, which cannot change the length — a length-changing edit is
impossible and modelled as a no-op; `setHeaderOp` carries a Rust
`String`, hence only applies UTF-8 values; a failing setter leaves the
record unchanged). -/
inductive RecOp where
  | replaceBody (b : Bytes)
  | mutBody (b : Bytes)
  | setHeaderOp (k : WarcHeader) (v : Bytes)
  | setDate (d : DateTimeUtc)
  | setWarcId (s : Bytes)
  | setWarcVersion (s : Bytes)
  | setWarcType (t : RecordType)
  | setTruncatedTypeOp (t : TruncatedType)
  | clearTruncatedType
deriving DecidableEq, Repr

/-- One step of the record interface. -/
def Record.applyOp (r : Record) : RecOp → Record
  | .replaceBody b => r.replaceBody b
  | .mutBody b => if b.length = r.body.length then { r with body := b } else r
  | .setHeaderOp k v =>
    if utf8Valid v then
      match r.setHeader k v with
      | .ok (_, r') => r'
      | .error _ => r
    else r
  | .setDate d => { r with recordDate := d }
  | .setWarcId s => { r with recordId := s }
  | .setWarcVersion s => { r with headers := { r.headers with version := s } }
  | .setWarcType t => { r with recordType := t }
  | .setTruncatedTypeOp t => r.setTruncatedType t
  | .clearTruncatedType => { r with truncatedType := none }

/-- A sequence of record operations. -/
def Record.applyOps (r : Record) (l : List RecOp) : Record :=
  l.foldl Record.applyOp r

/-- The operations of the builder interface. -/
inductive BOp where
  | bodyOp (b : Bytes)
  | dateOp (d : DateTimeUtc)
  | warcIdOp (s : Bytes)
  | versionOp (s : Bytes)
  | warcTypeOp (t : RecordType)
  | truncatedTypeOp (t : TruncatedType)
  | headerOp (k : WarcHeader) (v : Bytes)
deriving DecidableEq, Repr

/-- One step of the builder interface (field setters delegate to the
permissive typed setters and cannot fail). -/
def RecordBuilder.applyOp (b : RecordBuilder) : BOp → RecordBuilder
  | .bodyOp body => { b with value := b.value.replaceBody body }
  | .dateOp d => { b with value := { b.value with recordDate := d } }
  | .warcIdOp s => { b with value := { b.value with recordId := s } }
  | .versionOp s =>
    { b with value := { b.value with headers := { b.value.headers with version := s } } }
  | .warcTypeOp t => { b with value := { b.value with recordType := t } }
  | .truncatedTypeOp t => { b with value := b.value.setTruncatedType t }
  | .headerOp k v => b.header k v

/-- A sequence of builder operations. -/
def RecordBuilder.applyOps (b : RecordBuilder) (l : List BOp) : RecordBuilder :=
  l.foldl RecordBuilder.applyOp b

/-- Whether a builder operation is a failing header assignment in state
`b`. -/
def bOpFails (b : RecordBuilder) : BOp → Bool
  | .headerOp k v =>
    if utf8Valid v then
      match b.value.setHeader k v with
      | .ok _ => false
      | .error _ => true
    else true
  | _ => false

/-- Whether a builder operation is a successful header assignment for
the date key in state `b`. -/
def bOpSuccDate (b : RecordBuilder) : BOp → Bool
  | .headerOp k v => keyEqb k .date && !(bOpFails b (.headerOp k v))
  | _ => false

/-- No operation of the trace starting at `b` is a failing header
assignment. -/
def noFailingFrom (b : RecordBuilder) : List BOp → Bool
  | [] => true
  | op :: t => !bOpFails b op && noFailingFrom (b.applyOp op) t

/-- No operation of the trace starting at `b` is a successful header
assignment for the date key. -/
def noSuccDateFrom (b : RecordBuilder) : List BOp → Bool
  | [] => true
  | op :: t => !bOpSuccDate b op && noSuccDateFrom (b.applyOp op) t

/-- The header map holds at most one entry per canonical key (the
`HashMap` representation invariant). -/
def nodupKeysH : HMap → Bool
  | [] => true
  | p :: t => (lookupH p.1 t).isNone && nodupKeysH t

/-- Whether a parsed header line's key is `content-length`
case-insensitively (the discovery predicate of the `headers` loop). -/
def isCLHdr (hd : Parser.WarcHeader) : Bool :=
  decide (hd.key.map asciiLower = Parser.contentLengthKey)

/-- The first `content-length` header line of a parsed list, if any. -/
def firstContentLength (hl : List Parser.WarcHeader) : Option Bytes :=
  (hl.find? isCLHdr).map Parser.WarcHeader.value

/-- A fixed instant, standing in for `Utc::now()` in concrete records. -/
def dT : DateTimeUtc := ⟨2020, 7, 8, 2, 52, 55, 0⟩

/-- A fixed identifier, standing in for `generate_record_id()`. -/
def idT : Bytes := strB "<urn:test:record-0>"

/-- A raw record missing both `Content-Length` and `Warc-Type` but with
valid record-id and date headers. -/
def rawMissingBoth : RawRecord :=
  { headers := { version := strB "WARC/1.0"
                 headers := [(.recordID, strB "<urn:x>"),
                   (.date, strB "2020-07-08T02:52:55Z")] }
    body := strB "12345" }

/-- A raw record with every required header valid except the missing
`Warc-Type`. -/
def rawMissingType : RawRecord :=
  { headers := { version := strB "WARC/1.0"
                 headers := [(.contentLength, strB "5"),
                   (.recordID, strB "<urn:x>"),
                   (.date, strB "2020-07-08T02:52:55Z")] }
    body := strB "12345" }

/-- A valid raw record carrying a `WARC-Truncated: length` header. -/
def rawWithTruncated : RawRecord :=
  { headers := { version := strB "WARC/1.0"
                 headers := [(.warcType, strB "dunno"),
                   (.contentLength, strB "0"),
                   (.recordID, strB "<urn:x>"),
                   (.date, strB "2020-07-08T02:52:55Z"),
                   (.truncated, strB "length")] }
    body := [] }

/-- A valid raw record whose `WARC-Target-URI` value is not UTF-8. -/
def rawBadUri : RawRecord :=
  { headers := { version := strB "WARC/1.0"
                 headers := [(.warcType, strB "resource"),
                   (.contentLength, strB "0"),
                   (.recordID, strB "<urn:x>"),
                   (.date, strB "2020-07-08T02:52:55Z"),
                   (.targetURI, [255])] }
    body := [] }

/-- Discrimination of `Result::is_ok` on the modelled `Result` type. -/
def exceptIsOk {e a : Type} : Except e a → Bool
  | .ok _ => true
  | .error _ => false

/-- A default builder that was just given the failing date assignment
`header(Date, "not-a-date")`. -/
def bC5 : RecordBuilder :=
  (RecordBuilder.mkDefault dT idT).header .date (strB "not-a-date")

/-- A well-formed RFC 3339 date value. -/
def goodDate : Bytes := strB "2020-07-18T02:12:45Z"

/-- A raw record with valid content-length, type, and date, but no
record-id. -/
def rawMissingId : RawRecord :=
  { headers := { version := strB "WARC/1.0"
                 headers := [(.warcType, strB "dunno"),
                   (.contentLength, strB "5"),
                   (.date, strB "2020-07-08T02:52:55Z")] }
    body := strB "12345" }

/-- A raw record with valid content-length, type, and record-id, but no
date. -/
def rawMissingDate : RawRecord :=
  { headers := { version := strB "WARC/1.0"
                 headers := [(.warcType, strB "dunno"),
                   (.contentLength, strB "5"),
                   (.recordID, strB "<urn:x>")] }
    body := strB "12345" }

/-- A header block with two `content-length` lines: the first valid,
the second (differing in case) not even an integer. -/
def inputC3 : Bytes := strB "Content-Length: 2\ncontent-length: R2D2\n\n"

/-- The parsed header list of `inputC3`: both occurrences retained. -/
def hlC3 : List Parser.WarcHeader :=
  [⟨strB "Content-Length", strB "2", [], [32]⟩,
   ⟨strB "content-length", strB "R2D2", [], [32]⟩]

/-- A whole record framed by the first of two content-length lines. -/
def inputC3R : Bytes :=
  strB "WARC/1.0\nContent-Length: 2\ncontent-length: R2D2\n\nab\n\n"

/-- The record parsed from `inputC3R`. -/
def recC3 : Parser.WarcRecord := ⟨strB "1.0", hlC3, strB "ab"⟩

/-- The typed record produced by a builder given one extension header. -/
def rW7 : Record :=
  { headers := { version := strB "WARC/1.0"
                 headers := [(.targetURI, strB "https://x")] }
    recordDate := dT
    recordId := idT
    recordType := .resource
    truncatedType := none
    body := [] }

-- ===== THEOREMS =====

theorem utf8LossyGo_of_ascii :
    ∀ (f : Nat) (l : Bytes), l.length ≤ f → (∀ c ∈ l, c < 128) →
      utf8LossyGo f l = l := by
  intro f
  induction f with
  | zero =>
    intro l _ _
    match l with
    | [] => rfl
    | _ :: _ => rfl
  | succ f ih =>
    intro l hl hascii
    match l with
    | [] => rfl
    | b :: t =>
      have hb : b < 128 := hascii b (List.mem_cons_self b t)
      have : utf8Len b t = some 0 := by simp [utf8Len, hb]
      rw [utf8LossyGo, this]
      simp only [List.take_zero, List.drop_zero, List.nil_append]
      rw [ih t (by simp only [List.length_cons] at hl; omega)
        fun c hc => hascii c (List.mem_cons_of_mem b hc)]
      rfl

/-- Lossy decoding of an all-ASCII byte list is the identity. -/
theorem utf8Lossy_of_ascii (l : Bytes) (h : ∀ c ∈ l, c < 128) :
    utf8Lossy l = l :=
  utf8LossyGo_of_ascii l.length l (Nat.le_refl _) h

theorem keyEqb_refl (a : WarcHeader) : keyEqb a a = true := by
  simp [keyEqb]

theorem keyEqb_trans_ne {a b c : WarcHeader} (h1 : keyEqb a b = true)
    (h2 : keyEqb b c = false) : keyEqb a c = false := by
  simp only [keyEqb, decide_eq_true_eq, decide_eq_false_iff_not] at *
  rw [h1]
  exact h2


theorem keyEqb_symm (a b : WarcHeader) : keyEqb a b = keyEqb b a := by
  simp only [keyEqb]
  by_cases h : a.lowerName = b.lowerName
  · rw [h]
  · rw [decide_eq_false h, decide_eq_false (fun hh => h hh.symm)]

theorem keyEqb_symm_true {a b : WarcHeader} (h : keyEqb a b = true) :
    keyEqb b a = true := by
  rw [keyEqb_symm]
  exact h

theorem keyEqb_trans {a b c : WarcHeader} (h1 : keyEqb a b = true)
    (h2 : keyEqb b c = true) : keyEqb a c = true := by
  simp only [keyEqb, decide_eq_true_eq] at *
  rw [h1, h2]

theorem keyEqb_congr_right {a b : WarcHeader} (h : keyEqb a b = true)
    (c : WarcHeader) : keyEqb c a = keyEqb c b := by
  cases hca : keyEqb c a with
  | true => exact (keyEqb_trans hca h).symm
  | false =>
    cases hcb : keyEqb c b with
    | true =>
      have := keyEqb_trans hcb (keyEqb_symm_true h)
      rw [hca] at this
      exact this
    | false => rfl

theorem keyEqb_false_right {p k j : WarcHeader} (hp : keyEqb p k = false)
    (h : keyEqb k j = true) : keyEqb p j = false := by
  cases hq : keyEqb p j with
  | false => rfl
  | true =>
    have := keyEqb_trans hq (by rw [keyEqb_symm]; exact h)
    rw [this] at hp
    exact Bool.noConfusion hp

theorem keyEqb_symm_false {p k : WarcHeader} (hp : keyEqb p k = false) :
    keyEqb k p = false := by
  rw [keyEqb_symm]
  exact hp

theorem lookupH_congr {a b : WarcHeader} (h : keyEqb a b = true) (m : HMap) :
    lookupH a m = lookupH b m := by
  induction m with
  | nil => rfl
  | cons p t ih =>
    rw [lookupH, lookupH, keyEqb_congr_right h p.1]
    by_cases hp : keyEqb p.1 b = true
    · rw [if_pos hp, if_pos hp]
    · rw [if_neg hp, if_neg hp, ih]

theorem lookupH_insertH_eq {k j : WarcHeader} (h : keyEqb k j = true)
    (v : Bytes) (m : HMap) : lookupH j (insertH k v m) = some v := by
  induction m with
  | nil =>
    show lookupH j [(k, v)] = some v
    rw [lookupH, if_pos h]
  | cons p t ih =>
    by_cases hp : keyEqb p.1 k = true
    · rw [insertH, if_pos hp]
      rw [lookupH, if_pos (keyEqb_trans hp h)]
    · rw [insertH, if_neg hp]
      have hpf : keyEqb p.1 k = false := by
        cases hq : keyEqb p.1 k with
        | false => rfl
        | true => exact absurd hq hp
      have hpj : keyEqb p.1 j = false := keyEqb_false_right hpf h
      rw [lookupH, if_neg (by rw [hpj]; exact Bool.false_ne_true), ih]

theorem lookupH_insertH_ne {k j : WarcHeader} (h : keyEqb k j = false)
    (v : Bytes) (m : HMap) : lookupH j (insertH k v m) = lookupH j m := by
  induction m with
  | nil =>
    show lookupH j [(k, v)] = none
    rw [lookupH, if_neg (by rw [h]; exact Bool.false_ne_true)]
    rfl
  | cons p t ih =>
    by_cases hp : keyEqb p.1 k = true
    · rw [insertH, if_pos hp]
      have hpj : keyEqb p.1 j = false := by
        cases hq : keyEqb p.1 j with
        | false => rfl
        | true =>
          have := keyEqb_trans (by rw [keyEqb_symm]; exact hp) hq
          rw [this] at h
          exact Bool.noConfusion h
      rw [lookupH, if_neg (by rw [hpj]; exact Bool.false_ne_true), lookupH,
        if_neg (by rw [hpj]; exact Bool.false_ne_true)]
    · rw [insertH, if_neg hp]
      by_cases hj : keyEqb p.1 j = true
      · rw [lookupH, if_pos hj, lookupH, if_pos hj]
      · rw [lookupH, if_neg hj, lookupH, if_neg hj, ih]

theorem lookupH_eraseH_ne {k j : WarcHeader} (h : keyEqb k j = false)
    (m : HMap) : lookupH j (eraseH k m) = lookupH j m := by
  induction m with
  | nil => rfl
  | cons p t ih =>
    by_cases hp : keyEqb p.1 k = true
    · rw [eraseH, if_pos hp]
      have hpj : keyEqb p.1 j = false := by
        cases hq : keyEqb p.1 j with
        | false => rfl
        | true =>
          have := keyEqb_trans (keyEqb_symm_true hp) hq
          rw [this] at h
          exact Bool.noConfusion h
      rw [lookupH, if_neg (by rw [hpj]; exact Bool.false_ne_true)]
    · rw [eraseH, if_neg hp]
      by_cases hj : keyEqb p.1 j = true
      · rw [lookupH, if_pos hj, lookupH, if_pos hj]
      · rw [lookupH, if_neg hj, lookupH, if_neg hj, ih]

theorem lookupH_mem {k : WarcHeader} {m : HMap} {v : Bytes}
    (h : lookupH k m = some v) : ∃ p, p ∈ m ∧ p.2 = v := by
  induction m with
  | nil => exact absurd h (by rw [lookupH]; exact Option.noConfusion)
  | cons p t ih =>
    rw [lookupH] at h
    by_cases hp : keyEqb p.1 k = true
    · rw [if_pos hp] at h
      exact ⟨p, List.mem_cons_self p t, Option.some_injective _ h⟩
    · rw [if_neg hp] at h
      obtain ⟨q, hq, hv⟩ := ih h
      exact ⟨q, List.mem_cons_of_mem p hq, hv⟩

theorem nodupKeysH_insertH {k : WarcHeader} {m : HMap}
    (h : nodupKeysH m = true) (v : Bytes) : nodupKeysH (insertH k v m) = true := by
  induction m with
  | nil =>
    show nodupKeysH [(k, v)] = true
    rw [nodupKeysH, nodupKeysH]
    rfl
  | cons p t ih =>
    rw [nodupKeysH, Bool.and_eq_true] at h
    by_cases hp : keyEqb p.1 k = true
    · rw [insertH, if_pos hp, nodupKeysH, h.2, Bool.and_true]
      exact h.1
    · have hpf : keyEqb p.1 k = false := by
        cases hq : keyEqb p.1 k with
        | false => rfl
        | true => exact absurd hq hp
      rw [insertH, if_neg hp, nodupKeysH, ih h.2, Bool.and_true]
      rw [lookupH_insertH_ne (keyEqb_symm_false hpf) v t]
      exact h.1

theorem nodupKeysH_eraseH {k : WarcHeader} {m : HMap}
    (h : nodupKeysH m = true) : nodupKeysH (eraseH k m) = true := by
  induction m with
  | nil => rfl
  | cons p t ih =>
    rw [nodupKeysH, Bool.and_eq_true] at h
    by_cases hp : keyEqb p.1 k = true
    · rw [eraseH, if_pos hp]
      exact h.2
    · have hpf : keyEqb p.1 k = false := by
        cases hq : keyEqb p.1 k with
        | false => rfl
        | true => exact absurd hq hp
      rw [eraseH, if_neg hp, nodupKeysH, ih h.2, Bool.and_true]
      rw [lookupH_eraseH_ne (keyEqb_symm_false hpf) t]
      exact h.1

theorem lookupH_extendH (j : WarcHeader) :
    ∀ (l : HMap) (m : HMap), nodupKeysH l = true →
      lookupH j (extendH m l) =
        match lookupH j l with
        | some v => some v
        | none => lookupH j m := by
  intro l
  induction l with
  | nil => intro m _; rfl
  | cons p t ih =>
    intro m hnodup
    rw [nodupKeysH, Bool.and_eq_true] at hnodup
    show lookupH j (extendH (insertH p.1 p.2 m) t) = _
    rw [ih (insertH p.1 p.2 m) hnodup.2]
    by_cases hp : keyEqb p.1 j = true
    · have ht : lookupH j t = none := by
        rw [lookupH_congr (keyEqb_symm_true hp) t]
        cases hl : lookupH p.1 t with
        | none => rfl
        | some w =>
          rw [hl] at hnodup
          exact absurd hnodup.1 (by rw [Option.isNone_some]; exact Bool.false_ne_true)
      rw [ht]
      show lookupH j (insertH p.1 p.2 m) = _
      rw [lookupH_insertH_eq hp p.2 m, lookupH, if_pos hp]
    · have hpf : keyEqb p.1 j = false := by
        cases hq : keyEqb p.1 j with
        | false => rfl
        | true => exact absurd hq hp
      rw [lookupH, if_neg hp]
      cases hl : lookupH j t with
      | some w => rfl
      | none =>
        show lookupH j (insertH p.1 p.2 m) = lookupH j m
        exact lookupH_insertH_ne hpf p.2 m


/-- C2: every typed record reachable by any sequence of `replace_body`,
in-place `body_mut` edits, `set_header(ContentLength, _)` requests (and
the other public setters) has its derived `content_length` accessor
equal to the actual byte length of the body; content-length is not
stored as independent state (the record model has no such field). -/
theorem c2_content_length_invariant :
    (∀ r : Record, r.content_length = r.body.length) ∧
    (∀ (r0 : Record) (ops : List RecOp),
      (Record.applyOps r0 ops).content_length =
        (Record.applyOps r0 ops).body.length) :=
  ⟨fun _ => rfl, fun _ _ => rfl⟩

/-- C6 (code bug): converting a valid raw record carrying
`WARC-Truncated: length` succeeds, but contrary to the claim the
truncation reason is not promoted (`truncated_type` is `None`) and the
`WARC-Truncated` key remains in the residual map; setting a truncation
reason on the result then violates the `into_raw_parts` debug
assertion, so the code contradicts its own stated invariant. -/
theorem c6_truncated_not_promoted :
    exceptIsOk (tryFromRaw rawWithTruncated) = true ∧
    (tryFromRaw rawWithTruncated).map Record.truncatedType = .ok none ∧
    (tryFromRaw rawWithTruncated).map
      (fun r => lookupH .truncated r.headers.headers) = .ok (some (strB "length")) ∧
    (tryFromRaw rawWithTruncated).map
      (fun r => Record.rawPartsAssertOk (r.setTruncatedType .length)) = .ok false :=
  ⟨rfl, rfl, rfl, rfl⟩

/-- C4 counterexample: a raw record lacking both `Content-Length` and
`Warc-Type` (with valid record-id and date) fails with the
content-length missing-header error, not the record-type one — so
"regardless of whether every other required header is valid" is false
as stated. -/
theorem c4_counterexample :
    tryFromRaw rawMissingBoth = .error (.missingHeader .contentLength) ∧
    WarcError.missingHeader .contentLength ≠ WarcError.missingHeader .warcType :=
  ⟨rfl, by decide⟩

/-- C7 counterexample: a raw record whose `WARC-Target-URI` value is the
non-UTF-8 byte `0xFF` converts successfully via `TryFrom`, producing a
reachable typed record on which the header accessor's decode of the
stored value fails (the `unwrap` in `Record::header` is reachable). -/
theorem c7_counterexample :
    exceptIsOk (tryFromRaw rawBadUri) = true ∧
    (tryFromRaw rawBadUri).map
      (fun r => r.headerDecodes .targetURI) = .ok false :=
  ⟨rfl, rfl⟩

/-- C5 counterexample: after `header(Date, "not-a-date")` fails, a later
successful `header(Date, <valid>)` leaves that failing assignment as
the most recent failing one (the suffix contains no failing
assignment), and `build` still reports the date fault, but `build_raw`
now emits the valid date value, not the literal `not-a-date` — so the
claim's description of `build_raw` is false as stated. -/
theorem c5_counterexample :
    noFailingFrom bC5 [.headerOp .date goodDate] = true ∧
    RecordBuilder.build (RecordBuilder.applyOps bC5 [.headerOp .date goodDate]) =
      .error (.malformedHeader .date "not an ISO 8601 datestamp") ∧
    lookupH .date
      (RecordBuilder.applyOps bC5 [.headerOp .date goodDate]).buildRaw.1.headers =
      some goodDate ∧
    goodDate ≠ strB "not-a-date" :=
  ⟨rfl, rfl, rfl, by decide⟩

/-- C10: when a header assignment for key `k` fails and a later
assignment for the same key succeeds, the broken-header entry for `k`
is removed (here: the table returns to empty), the typed record holds
the valid value, but the remembered failure is not cleared and `build`
still returns the earlier error. -/
theorem c10_failure_remembered (b : RecordBuilder) (k : WarcHeader) (v1 v2 : Bytes)
    (hb : b.broken = [])
    (hfail : bOpFails b (.headerOp k v1) = true)
    (hsucc : bOpFails (b.header k v1) (.headerOp k v2) = false) :
    ((b.header k v1).header k v2).broken = [] ∧
    ((b.header k v1).header k v2).lastError = (b.header k v1).lastError ∧
    (∃ e, (b.header k v1).lastError = some e ∧
      ((b.header k v1).header k v2).build = .error e) ∧
    (∃ old r', (b.header k v1).value.setHeader k v2 = .ok (old, r') ∧
      ((b.header k v1).header k v2).value = r') := by
  have hb1 : ∃ e1, b.header k v1 =
      { value := b.value, broken := [(k, v1)], lastError := some e1 } := by
    rw [RecordBuilder.header, hb]
    simp only [bOpFails] at hfail
    by_cases hu : utf8Valid v1 = true
    · rw [if_pos hu] at hfail ⊢
      cases hset : b.value.setHeader k v1 with
      | ok pr =>
        rw [hset] at hfail
        exact Bool.noConfusion hfail
      | error e => exact ⟨e, rfl⟩
    · rw [if_neg hu]
      exact ⟨.malformedHeader k "not a UTF-8 string", rfl⟩
  obtain ⟨e1, hb1⟩ := hb1
  rw [hb1] at hsucc ⊢
  simp only [bOpFails] at hsucc
  by_cases hu2 : utf8Valid v2 = true
  · rw [if_pos hu2] at hsucc
    cases hset2 : RecordBuilder.value
        { value := b.value, broken := [(k, v1)], lastError := some e1 }
        |>.setHeader k v2 with
    | error e =>
      rw [hset2] at hsucc
      exact Bool.noConfusion hsucc
    | ok pr =>
      have hstep : RecordBuilder.header
          { value := b.value, broken := [(k, v1)], lastError := some e1 } k v2 =
          { value := pr.2, broken := eraseH k (insertH k v2 [(k, v1)]),
            lastError := some e1 } := by
        rw [RecordBuilder.header, if_pos hu2]
        show (match b.value.setHeader k v2 with
          | .ok (_, r') =>
            ({ value := r', broken := eraseH k (insertH k v2 [(k, v1)]),
               lastError := some e1 } : RecordBuilder)
          | .error e =>
            { value := b.value, broken := insertH k v2 [(k, v1)],
              lastError := some e }) = _
        rw [show b.value.setHeader k v2 = .ok pr from hset2]
      have hins : insertH k v2 [(k, v1)] = [(k, v2)] := by
        show (if keyEqb k k then (k, v2) :: [] else (k, v1) :: insertH k v2 []) = _
        rw [if_pos (by rw [keyEqb_refl])]
      have hera : eraseH k [(k, v2)] = [] := by
        show (if keyEqb k k then [] else (k, v2) :: eraseH k []) = _
        rw [if_pos (by rw [keyEqb_refl])]
      rw [hstep, hins, hera]
      exact ⟨rfl, rfl, ⟨e1, rfl, rfl⟩, ⟨pr.1, pr.2, rfl, rfl⟩⟩
  · rw [if_neg hu2] at hsucc
    exact Bool.noConfusion hsucc

/-- Closed witness for the C10 theorem: a date assignment failing with
`not-a-date` followed by a successful one. -/
theorem c10_witness :
    (((RecordBuilder.mkDefault dT idT).header .date (strB "not-a-date")).header
        .date goodDate).broken = [] ∧
    (((RecordBuilder.mkDefault dT idT).header .date (strB "not-a-date")).header
        .date goodDate).lastError =
      ((RecordBuilder.mkDefault dT idT).header .date (strB "not-a-date")).lastError ∧
    (∃ e, ((RecordBuilder.mkDefault dT idT).header .date (strB "not-a-date")).lastError =
        some e ∧
      (((RecordBuilder.mkDefault dT idT).header .date (strB "not-a-date")).header
          .date goodDate).build = .error e) ∧
    (∃ old r',
      ((RecordBuilder.mkDefault dT idT).header .date (strB "not-a-date")).value.setHeader
          .date goodDate = .ok (old, r') ∧
      (((RecordBuilder.mkDefault dT idT).header .date (strB "not-a-date")).header
          .date goodDate).value = r') :=
  c10_failure_remembered (RecordBuilder.mkDefault dT idT) .date
    (strB "not-a-date") goodDate rfl rfl rfl

/-- C8: a `set_header(ContentLength, v)` request on a typed record
succeeds exactly when `v` parses as a non-negative integer equal to the
current body length; on an empty-body record, setting `"50"` fails and
setting `"0"` succeeds, returning `"0"`. -/
theorem c8_set_content_length :
    (∀ (r : Record) (v : Bytes),
      (exceptIsOk (r.setHeader .contentLength v) = true ↔
        parseU64 v = some r.body.length)) ∧
    (Record.mkDefault dT idT).setHeader .contentLength (strB "50") =
      .error (.malformedHeader .contentLength "content length != body size") ∧
    (Record.mkDefault dT idT).setHeader .contentLength (strB "0") =
      .ok (some (strB "0"), Record.mkDefault dT idT) := by
  refine ⟨?_, rfl, rfl⟩
  intro r v
  have hred : r.setHeader .contentLength v =
      (match Record.parse_content_length v with
       | .error e => .error e
       | .ok n =>
         if n ≠ r.content_length then
           .error (.malformedHeader .contentLength "content length != body size")
         else .ok (some v, r)) := rfl
  rw [hred]
  cases hp : parseU64 v with
  | none =>
    have : Record.parse_content_length v =
        .error (.malformedHeader .contentLength
          "not an integer between 0 and 2^64-1") := by
      rw [Record.parse_content_length, hp]
    rw [this]
    constructor
    · intro h
      exact absurd h (by rw [exceptIsOk]; exact Bool.noConfusion)
    · intro h
      exact absurd h Option.noConfusion
  | some n =>
    have : Record.parse_content_length v = .ok n := by
      rw [Record.parse_content_length, hp]
    rw [this]
    show exceptIsOk
        (if n ≠ r.content_length then
          (.error (.malformedHeader .contentLength "content length != body size") :
            Except WarcError (Option Bytes × Record))
        else .ok (some v, r)) = true ↔ some n = some r.body.length
    by_cases hn : n = r.body.length
    · rw [if_neg (show ¬n ≠ r.content_length from fun hc => hc hn)]
      constructor
      · intro _
        rw [hn]
      · intro _
        rfl
    · rw [if_pos (show n ≠ r.content_length from hn)]
      constructor
      · intro h
        exact Bool.noConfusion h
      · intro h
        exact absurd (Option.some_injective _ h) hn

/-- Closed witness for the C8 equivalence at a concrete record and
value. -/
theorem c8_witness :
    exceptIsOk ((Record.mkDefault dT idT).setHeader .contentLength (strB "0")) =
        true ↔
      parseU64 (strB "0") = some (Record.mkDefault dT idT).body.length :=
  (c8_set_content_length.1 (Record.mkDefault dT idT) (strB "0"))



theorem checkContentLength_ok {m : HMap} {body v : Bytes}
    (hcl : lookupH .contentLength m = some v)
    (hutf : utf8Valid v = true)
    (hparse : parseU64 v = some body.length) :
    checkContentLength m body = .ok (eraseH .contentLength m) := by
  simp only [checkContentLength, hcl, hutf, if_true, Record.parse_content_length,
    hparse, if_pos]

/-- C4 (amended): validation runs in the fixed order content-length,
record-type, record-id, date and stops at the first failure: a raw
record passing the content-length check but lacking `Warc-Type` fails
with the missing-header error naming record-type regardless of the
record-id and date headers; likewise a missing record-id is reported
once content-length and record-type pass, and a missing date once the
first three pass. -/
theorem c4_fixed_order_validation :
    (∀ (raw : RawRecord) (v : Bytes),
      lookupH .contentLength raw.headers.headers = some v →
      utf8Valid v = true →
      parseU64 v = some raw.body.length →
      lookupH .warcType raw.headers.headers = none →
      tryFromRaw raw = .error (.missingHeader .warcType)) ∧
    (∀ (raw : RawRecord) (v tv : Bytes),
      lookupH .contentLength raw.headers.headers = some v →
      utf8Valid v = true →
      parseU64 v = some raw.body.length →
      lookupH .warcType raw.headers.headers = some tv →
      utf8Valid tv = true →
      lookupH .recordID raw.headers.headers = none →
      tryFromRaw raw = .error (.missingHeader .recordID)) ∧
    (∀ (raw : RawRecord) (v tv idv : Bytes),
      lookupH .contentLength raw.headers.headers = some v →
      utf8Valid v = true →
      parseU64 v = some raw.body.length →
      lookupH .warcType raw.headers.headers = some tv →
      utf8Valid tv = true →
      lookupH .recordID raw.headers.headers = some idv →
      utf8Valid idv = true →
      lookupH .date raw.headers.headers = none →
      tryFromRaw raw = .error (.missingHeader .date)) := by
  refine ⟨?_, ?_, ?_⟩
  · intro raw v hcl hutf hparse hnot
    have h1 := checkContentLength_ok hcl hutf hparse
    have h2m : lookupH .warcType (eraseH .contentLength raw.headers.headers) =
        none := by
      rw [lookupH_eraseH_ne (by decide) raw.headers.headers]
      exact hnot
    have h2 : checkWarcType (eraseH .contentLength raw.headers.headers) =
        .error (.missingHeader .warcType) := by
      simp only [checkWarcType, h2m]
    simp only [tryFromRaw, h1, h2]
  · intro raw v tv hcl hutf hparse hty hutfty hnoid
    have h1 := checkContentLength_ok hcl hutf hparse
    have h2m : lookupH .warcType (eraseH .contentLength raw.headers.headers) =
        some tv := by
      rw [lookupH_eraseH_ne (by decide) raw.headers.headers]
      exact hty
    have h2 : checkWarcType (eraseH .contentLength raw.headers.headers) =
        .ok (RecordType.ofBytes tv,
          eraseH .warcType (eraseH .contentLength raw.headers.headers)) := by
      simp only [checkWarcType, h2m, hutfty, if_true]
    have h3m : lookupH .recordID
        (eraseH .warcType (eraseH .contentLength raw.headers.headers)) = none := by
      rw [lookupH_eraseH_ne (by decide), lookupH_eraseH_ne (by decide)]
      exact hnoid
    have h3 : checkRecordID
        (eraseH .warcType (eraseH .contentLength raw.headers.headers)) =
        .error (.missingHeader .recordID) := by
      simp only [checkRecordID, h3m]
    simp only [tryFromRaw, h1, h2, h3]
  · intro raw v tv idv hcl hutf hparse hty hutfty hid hutfid hnodate
    have h1 := checkContentLength_ok hcl hutf hparse
    have h2m : lookupH .warcType (eraseH .contentLength raw.headers.headers) =
        some tv := by
      rw [lookupH_eraseH_ne (by decide) raw.headers.headers]
      exact hty
    have h2 : checkWarcType (eraseH .contentLength raw.headers.headers) =
        .ok (RecordType.ofBytes tv,
          eraseH .warcType (eraseH .contentLength raw.headers.headers)) := by
      simp only [checkWarcType, h2m, hutfty, if_true]
    have h3m : lookupH .recordID
        (eraseH .warcType (eraseH .contentLength raw.headers.headers)) =
        some idv := by
      rw [lookupH_eraseH_ne (by decide), lookupH_eraseH_ne (by decide)]
      exact hid
    have h3 : checkRecordID
        (eraseH .warcType (eraseH .contentLength raw.headers.headers)) =
        .ok (idv, eraseH .recordID
          (eraseH .warcType (eraseH .contentLength raw.headers.headers))) := by
      simp only [checkRecordID, h3m, hutfid, if_true]
    have h4m : lookupH .date (eraseH .recordID
        (eraseH .warcType (eraseH .contentLength raw.headers.headers))) = none := by
      rw [lookupH_eraseH_ne (by decide), lookupH_eraseH_ne (by decide),
        lookupH_eraseH_ne (by decide)]
      exact hnodate
    have h4 : checkDate (eraseH .recordID
        (eraseH .warcType (eraseH .contentLength raw.headers.headers))) =
        .error (.missingHeader .date) := by
      simp only [checkDate, h4m]
    simp only [tryFromRaw, h1, h2, h3, h4]

/-- Closed witness for the C4 theorem at three concrete raw records
(missing type, missing id, missing date). -/
theorem c4_witness :
    tryFromRaw rawMissingType = .error (.missingHeader .warcType) ∧
    tryFromRaw rawMissingId = .error (.missingHeader .recordID) ∧
    tryFromRaw rawMissingDate = .error (.missingHeader .date) :=
  ⟨c4_fixed_order_validation.1 rawMissingType (strB "5") rfl rfl rfl rfl,
   c4_fixed_order_validation.2.1 rawMissingId (strB "5") (strB "dunno")
     rfl rfl rfl rfl rfl rfl,
   c4_fixed_order_validation.2.2 rawMissingDate (strB "5") (strB "dunno")
     (strB "<urn:x>") rfl rfl rfl rfl rfl rfl rfl rfl⟩



theorem takeWhileAppendAll {p : Nat → Bool} {k : Bytes}
    (hk : ∀ c ∈ k, p c = true) (r : Bytes) :
    (k ++ r).takeWhile p = k ++ r.takeWhile p := by
  induction k with
  | nil => rfl
  | cons c t ih =>
    have hc : p c = true := hk c (List.mem_cons_self c t)
    rw [List.cons_append, List.takeWhile_cons, hc]
    simp only [if_true]
    rw [List.cons_append, ih fun b hb => hk b (List.mem_cons_of_mem c hb)]

theorem dropWhileAppendAll {p : Nat → Bool} {k : Bytes}
    (hk : ∀ c ∈ k, p c = true) (r : Bytes) :
    (k ++ r).dropWhile p = r.dropWhile p := by
  induction k with
  | nil => rfl
  | cons c t ih =>
    have hc : p c = true := hk c (List.mem_cons_self c t)
    rw [List.cons_append, List.dropWhile_cons, hc]
    simp only [if_true]
    exact ih fun b hb => hk b (List.mem_cons_of_mem c hb)

theorem takeWhileAllTrue {p : Nat → Bool} {l : Bytes}
    (h : ∀ c ∈ l, p c = true) : l.takeWhile p = l := by
  induction l with
  | nil => rfl
  | cons c t ih =>
    rw [List.takeWhile_cons, h c (List.mem_cons_self c t)]
    simp only [if_true]
    rw [ih fun b hb => h b (List.mem_cons_of_mem c hb)]

theorem dropWhileAllTrue {p : Nat → Bool} {l : Bytes}
    (h : ∀ c ∈ l, p c = true) : l.dropWhile p = [] := by
  induction l with
  | nil => rfl
  | cons c t ih =>
    rw [List.dropWhile_cons, h c (List.mem_cons_self c t)]
    simp only [if_true]
    exact ih fun b hb => h b (List.mem_cons_of_mem c hb)

theorem memDropWhile {p : Nat → Bool} {l : Bytes} {c : Nat}
    (h : c ∈ l.dropWhile p) : c ∈ l := by
  induction l with
  | nil => exact absurd h (List.not_mem_nil c)
  | cons b t ih =>
    rw [List.dropWhile_cons] at h
    by_cases hb : p b = true
    · rw [hb] at h
      simp only [if_true] at h
      exact List.mem_cons_of_mem b (ih h)
    · have hbf : p b = false := by
        cases hq : p b with
        | false => rfl
        | true => exact absurd hq hb
      rw [hbf] at h
      simp only [Bool.false_eq_true, if_false] at h
      exact h

theorem tokenCharFalseOfSpace {c : Nat} (h : isSpaceByte c = true) :
    isHeaderTokenChar c = false := by
  have : c = 32 ∨ c = 9 := by
    simp only [isSpaceByte, Bool.or_eq_true, decide_eq_true_eq] at h
    exact h
  rcases this with h32 | h9
  · rw [h32]
    decide
  · rw [h9]
    decide

theorem spanHeadFalse {p : Nat → Bool} {c : Nat} {t : Bytes}
    (h : p c = false) :
    (c :: t).takeWhile p = [] ∧ (c :: t).dropWhile p = c :: t := by
  constructor
  · rw [List.takeWhile_cons, h]
    simp
  · rw [List.dropWhile_cons, h]
    simp

/-- C9: the two operating modes of one grammar: an input that ends in
the middle of a header line (token, optional spaces, colon, optional
spaces, a value without any line terminator) makes the streaming header
parser report "need more input", while the identical bytes in complete
mode are a hard grammar failure. -/
theorem c9_streaming_vs_complete (k s1 s2 v : Bytes)
    (hk : k ≠ [])
    (hkc : ∀ c ∈ k, isHeaderTokenChar c = true)
    (hs1 : ∀ c ∈ s1, isSpaceByte c = true)
    (hs2 : ∀ c ∈ s2, isSpaceByte c = true)
    (hv : ∀ c ∈ v, c ≠ 13 ∧ c ≠ 10) :
    Parser.header .streaming (k ++ (s1 ++ 58 :: (s2 ++ v))) = .incomplete ∧
    Parser.header .complete (k ++ (s1 ++ 58 :: (s2 ++ v))) = .fail := by
  have hrestHead : ∃ c t, s1 ++ 58 :: (s2 ++ v) = c :: t ∧
      isHeaderTokenChar c = false := by
    cases s1 with
    | nil => exact ⟨58, s2 ++ v, rfl, by decide⟩
    | cons c t =>
      exact ⟨c, t ++ 58 :: (s2 ++ v), rfl,
        tokenCharFalseOfSpace (hs1 c (List.mem_cons_self c t))⟩
  obtain ⟨c0, t0, hct, hc0⟩ := hrestHead
  have htwA : (k ++ (s1 ++ 58 :: (s2 ++ v))).takeWhile isHeaderTokenChar = k := by
    rw [takeWhileAppendAll hkc, hct, (spanHeadFalse hc0).1, List.append_nil]
  have hdwA : (k ++ (s1 ++ 58 :: (s2 ++ v))).dropWhile isHeaderTokenChar =
      s1 ++ 58 :: (s2 ++ v) := by
    rw [dropWhileAppendAll hkc, hct, (spanHeadFalse hc0).2]
  have hke : k.isEmpty = false := by
    cases k with
    | nil => exact absurd rfl hk
    | cons a b => rfl
  have hA : ∀ m, Parser.takeWhile1P m isHeaderTokenChar
      (k ++ (s1 ++ 58 :: (s2 ++ v))) = .done (s1 ++ 58 :: (s2 ++ v)) k := by
    intro m
    simp only [Parser.takeWhile1P, htwA, hdwA]
    rw [hct]
    show (if k.isEmpty = true then PR.fail else PR.done (c0 :: t0) k) =
      PR.done (c0 :: t0) k
    rw [if_neg (fun hcond => by rw [hke] at hcond; exact Bool.noConfusion hcond)]
  have htwB : (s1 ++ 58 :: (s2 ++ v)).takeWhile isSpaceByte = s1 := by
    rw [takeWhileAppendAll hs1, (spanHeadFalse (p := isSpaceByte) (by decide)).1,
      List.append_nil]
  have hdwB : (s1 ++ 58 :: (s2 ++ v)).dropWhile isSpaceByte = 58 :: (s2 ++ v) := by
    rw [dropWhileAppendAll hs1, (spanHeadFalse (p := isSpaceByte) (by decide)).2]
  have hB : ∀ m, Parser.space0P m (s1 ++ 58 :: (s2 ++ v)) =
      .done (58 :: (s2 ++ v)) s1 := by
    intro m
    simp only [Parser.space0P, htwB, hdwB]
  have hC : ∀ m, Parser.tagP m [58] (58 :: (s2 ++ v)) = .done (s2 ++ v) [58] := by
    intro m
    rw [Parser.tagP.eq_def]
    rw [if_pos (by simp [List.isPrefixOf])]
    rfl
  have hnotCRLF : ∀ c ∈ s2 ++ v, (!(c = 13 || c = 10)) = true := by
    intro c hc
    rcases List.mem_append.mp hc with h2 | hvv
    · have : c = 32 ∨ c = 9 := by
        have := hs2 c h2
        simp only [isSpaceByte, Bool.or_eq_true, decide_eq_true_eq] at this
        exact this
      rcases this with h | h
      · rw [h]
        rfl
      · rw [h]
        rfl
    · obtain ⟨h13, h10⟩ := hv c hvv
      simp [h13, h10]
  have hnleNil : Parser.notLineEndingP .complete [] = .done [] [] := rfl
  have hleNil : Parser.lineEndingP .complete [] = .fail := rfl
  cases hD : (s2 ++ v).dropWhile isSpaceByte with
  | nil =>
    have hspS : Parser.space0P .streaming (s2 ++ v) = .incomplete := by
      simp only [Parser.space0P, hD]
    have hspC : Parser.space0P .complete (s2 ++ v) =
        .done [] ((s2 ++ v).takeWhile isSpaceByte) := by
      simp only [Parser.space0P, hD]
    constructor
    · simp only [Parser.header, hA .streaming, PR.bind, hB .streaming,
        hC .streaming, hspS]
    · simp only [Parser.header, hA .complete, PR.bind, hB .complete,
        hC .complete, hspC, hnleNil, hleNil]
  | cons c1 t1 =>
    have hmemD : ∀ b ∈ c1 :: t1, b ∈ s2 ++ v := by
      intro b hb
      exact memDropWhile (p := isSpaceByte) (by rw [hD]; exact hb)
    have htwD : (c1 :: t1).takeWhile (fun c => !(c = 13 || c = 10)) = c1 :: t1 :=
      takeWhileAllTrue fun b hb => hnotCRLF b (hmemD b hb)
    have hdwD : (c1 :: t1).dropWhile (fun c => !(c = 13 || c = 10)) = [] :=
      dropWhileAllTrue fun b hb => hnotCRLF b (hmemD b hb)
    have hnleS : Parser.notLineEndingP .streaming (c1 :: t1) = .incomplete := by
      simp only [Parser.notLineEndingP, htwD, hdwD]
    have hnleC : Parser.notLineEndingP .complete (c1 :: t1) =
        .done [] (c1 :: t1) := by
      simp only [Parser.notLineEndingP, htwD, hdwD]
    have hsp : ∀ m, Parser.space0P m (s2 ++ v) =
        .done (c1 :: t1) ((s2 ++ v).takeWhile isSpaceByte) := by
      intro m
      simp only [Parser.space0P, hD]
    constructor
    · simp only [Parser.header, hA .streaming, PR.bind, hB .streaming,
        hC .streaming, hsp .streaming, hnleS]
    · simp only [Parser.header, hA .complete, PR.bind, hB .complete,
        hC .complete, hsp .complete, hnleC, hleNil]

/-- Closed witness for C9 at the source's own test vector
`incomplete-header : missing-line-ending`. -/
theorem c9_witness :
    Parser.header .streaming
      (strB "incomplete-header" ++
        ([32] ++ 58 :: ([32] ++ strB "missing-line-ending"))) = .incomplete ∧
    Parser.header .complete
      (strB "incomplete-header" ++
        ([32] ++ 58 :: ([32] ++ strB "missing-line-ending"))) = .fail :=
  c9_streaming_vs_complete (strB "incomplete-header") [32] [32]
    (strB "missing-line-ending") (by decide) (by decide) (by decide) (by decide)
    (by decide)



theorem headersFold_spec :
    ∀ (l : List Parser.HdrTuple) (cl : Option Nat)
      (hl : List Parser.WarcHeader) (n : Nat),
      Parser.headersFold l cl = some (hl, n) →
      hl = l.map Parser.mkHdr ∧
      (match cl with
       | some c => n = c
       | none =>
         match hl.find? isCLHdr with
         | some hd => parseU64 hd.value = some n
         | none => n = 0) := by
  intro l
  induction l with
  | nil =>
    intro cl hl n h
    simp only [Parser.headersFold] at h
    obtain ⟨h1, h2⟩ := Prod.mk.injEq .. ▸ Option.some_injective _ h
    refine ⟨h1.symm ▸ rfl, ?_⟩
    cases cl with
    | some c => exact h2.symm
    | none =>
      rw [← h1]
      simp only [List.find?_nil]
      exact h2.symm
  | cons hd t ih =>
    obtain ⟨k, v, dl, dr⟩ := hd
    intro cl hl n h
    simp only [Parser.headersFold] at h
    by_cases hk : utf8Valid k = true
    · rw [if_pos hk] at h
      by_cases hcond : cl = none ∧ k.map asciiLower = Parser.contentLengthKey
      · rw [if_pos hcond] at h
        by_cases hvv : utf8Valid v = true
        · rw [if_pos hvv] at h
          cases hp : parseU64 v with
          | none =>
            rw [hp] at h
            exact absurd h Option.noConfusion
          | some len =>
            rw [hp] at h
            have h2 : (match Parser.headersFold t (some len) with
                | some (l, n) => some (Parser.mkHdr (k, v, dl, dr) :: l, n)
                | none => none) = some (hl, n) := h
            cases hf : Parser.headersFold t (some len) with
            | none =>
              rw [hf] at h2
              exact absurd h2 Option.noConfusion
            | some r =>
              obtain ⟨l2, n2⟩ := r
              rw [hf] at h2
              simp only [Option.some.injEq, Prod.mk.injEq] at h2
              obtain ⟨hhl, hn⟩ := h2
              obtain ⟨hmap, hcl2⟩ := ih (some len) l2 n2 hf
              have hn2 : n2 = len := hcl2
              refine ⟨by rw [← hhl, hmap, List.map_cons], ?_⟩
              rw [hcond.1]
              have hfind : hl.find? isCLHdr =
                  some (Parser.mkHdr (k, v, dl, dr)) := by
                rw [← hhl]
                refine List.find?_cons_of_pos _ ?_
                simp only [isCLHdr, Parser.mkHdr, decide_eq_true_eq]
                exact hcond.2
              rw [hfind]
              show parseU64 v = some n
              rw [hp, ← hn, hn2]
        · rw [if_neg hvv] at h
          exact absurd h Option.noConfusion
      · rw [if_neg hcond] at h
        cases hf : Parser.headersFold t cl with
        | none =>
          rw [hf] at h
          exact absurd h Option.noConfusion
        | some r =>
          obtain ⟨l2, n2⟩ := r
          rw [hf] at h
          simp only [Option.some.injEq, Prod.mk.injEq] at h
          obtain ⟨hhl, hn⟩ := h
          obtain ⟨hmap, hcl2⟩ := ih cl l2 n2 hf
          refine ⟨by rw [← hhl, hmap, List.map_cons], ?_⟩
          cases cl with
          | some c =>
            rw [← hn]
            exact hcl2
          | none =>
            have hkey : ¬(k.map asciiLower = Parser.contentLengthKey) :=
              fun hkk => hcond ⟨rfl, hkk⟩
            have hfind : hl.find? isCLHdr = l2.find? isCLHdr := by
              rw [← hhl]
              refine List.find?_cons_of_neg _ ?_
              simp only [isCLHdr, Parser.mkHdr, decide_eq_true_eq]
              exact hkey
            rw [hfind, ← hn]
            exact hcl2
    · rw [if_neg hk] at h
      exact absurd h Option.noConfusion

theorem headers_done_framing {m : Mode} {input rest : Bytes}
    {hl : List Parser.WarcHeader} {n : Nat}
    (h : Parser.headers m input = .done rest (hl, n)) :
    (∃ raw, Parser.many1P (Parser.header m) input = .done rest raw ∧
      hl = raw.map Parser.mkHdr) ∧
    (match hl.find? isCLHdr with
     | some hd => parseU64 hd.value = some n
     | none => n = 0) := by
  rw [Parser.headers] at h
  cases hm : Parser.many1P (Parser.header m) input with
  | incomplete =>
    rw [hm] at h
    exact absurd h PR.noConfusion
  | fail =>
    rw [hm] at h
    exact absurd h PR.noConfusion
  | done i1 hs =>
    rw [hm] at h
    simp only [PR.bind] at h
    cases hf : Parser.headersFold hs none with
    | none =>
      rw [hf] at h
      exact absurd h PR.noConfusion
    | some r =>
      obtain ⟨hl2, n2⟩ := r
      rw [hf] at h
      injection h with hi hpair
      rw [Prod.mk.injEq] at hpair
      obtain ⟨hhl, hn⟩ := hpair
      subst hi
      subst hhl
      subst hn
      obtain ⟨hmap, hmatch⟩ := headersFold_spec hs none _ _ hf
      exact ⟨⟨hs, rfl, hmap⟩, hmatch⟩

theorem takeP_done {m : Mode} {n : Nat} {i r b : Bytes}
    (h : Parser.takeP m n i = .done r b) : b.length = n := by
  rw [Parser.takeP.eq_def] at h
  by_cases hn : n ≤ i.length
  · rw [if_pos hn] at h
    injection h with h1 h2
    rw [← h2, List.length_take]
    omega
  · rw [if_neg hn] at h
    cases m with
    | streaming => exact absurd h PR.noConfusion
    | complete => exact absurd h PR.noConfusion

/-- C3: when the grammar parser parses a header block or a record, the
declared body length (and hence the number of body bytes consumed) comes
from the first header line, in parse order, whose key equals
`content-length` case-insensitively — later occurrences do not affect
framing — every header line is retained in the resulting ordered list
(`many1`'s output is kept one-to-one), and with no such header the
length defaults to zero. -/
theorem c3_first_content_length :
    (∀ (m : Mode) (input rest : Bytes) (hl : List Parser.WarcHeader) (n : Nat),
      Parser.headers m input = .done rest (hl, n) →
      (∃ raw, Parser.many1P (Parser.header m) input = .done rest raw ∧
        hl = raw.map Parser.mkHdr) ∧
      (match hl.find? isCLHdr with
       | some hd => parseU64 hd.value = some n
       | none => n = 0)) ∧
    (∀ (m : Mode) (input rest : Bytes) (rec : Parser.WarcRecord),
      Parser.record m input = .done rest rec →
      (match rec.headers.find? isCLHdr with
       | some hd => parseU64 hd.value = some rec.body.length
       | none => rec.body.length = 0)) := by
  constructor
  · intro m input rest hl n h
    exact headers_done_framing h
  · intro m input rest rec h
    rw [Parser.record] at h
    cases hv : Parser.version m input with
    | incomplete =>
      rw [hv] at h
      exact absurd h PR.noConfusion
    | fail =>
      rw [hv] at h
      exact absurd h PR.noConfusion
    | done i1 ver =>
      rw [hv] at h
      simp only [PR.bind] at h
      cases hh : Parser.headers m i1 with
      | incomplete =>
        rw [hh] at h
        exact absurd h PR.noConfusion
      | fail =>
        rw [hh] at h
        exact absurd h PR.noConfusion
      | done i2 hlp =>
        obtain ⟨hl, len⟩ := hlp
        rw [hh] at h
        simp only [PR.bind] at h
        cases hle : Parser.lineEndingP m i2 with
        | incomplete =>
          rw [hle] at h
          exact absurd h PR.noConfusion
        | fail =>
          rw [hle] at h
          exact absurd h PR.noConfusion
        | done i3 e1 =>
          rw [hle] at h
          simp only [PR.bind] at h
          cases ht : Parser.takeP m len i3 with
          | incomplete =>
            rw [ht] at h
            exact absurd h PR.noConfusion
          | fail =>
            rw [ht] at h
            exact absurd h PR.noConfusion
          | done i4 body =>
            rw [ht] at h
            simp only [PR.bind] at h
            cases hle2 : Parser.lineEndingP m i4 with
            | incomplete =>
              rw [hle2] at h
              exact absurd h PR.noConfusion
            | fail =>
              rw [hle2] at h
              exact absurd h PR.noConfusion
            | done i5 e2 =>
              rw [hle2] at h
              simp only [PR.bind] at h
              cases hle3 : Parser.lineEndingP m i5 with
              | incomplete =>
                rw [hle3] at h
                exact absurd h PR.noConfusion
              | fail =>
                rw [hle3] at h
                exact absurd h PR.noConfusion
              | done i6 e3 =>
                rw [hle3] at h
                simp only [PR.bind] at h
                injection h with hi hrec
                have hlen : body.length = len := takeP_done ht
                have hframe := (headers_done_framing hh).2
                rw [← hrec]
                show (match hl.find? isCLHdr with
                  | some hd => parseU64 hd.value = some body.length
                  | none => body.length = 0)
                rw [hlen]
                exact hframe

/-- Closed witness for C3: a header block (and a record) with two
content-length lines, the first honored for framing, the second
retained although not even numeric. -/
theorem c3_witness :
    ((∃ raw, Parser.many1P (Parser.header .streaming) inputC3 =
        .done (strB "\n") raw ∧ hlC3 = raw.map Parser.mkHdr) ∧
      (match hlC3.find? isCLHdr with
       | some hd => parseU64 hd.value = some 2
       | none => 2 = 0)) ∧
    (match recC3.headers.find? isCLHdr with
     | some hd => parseU64 hd.value = some recC3.body.length
     | none => recC3.body.length = 0) :=
  ⟨c3_first_content_length.1 .streaming inputC3 (strB "\n") hlC3 2 rfl,
   c3_first_content_length.2 .streaming inputC3R [] recC3 rfl⟩



theorem allV_insertH {m : HMap} {v : Bytes}
    (hall : ∀ p ∈ m, utf8Valid p.2 = true) (hv : utf8Valid v = true)
    (k : WarcHeader) : ∀ p ∈ insertH k v m, utf8Valid p.2 = true := by
  induction m with
  | nil =>
    intro p hp
    rw [show insertH k v [] = [(k, v)] from rfl] at hp
    rw [List.mem_singleton] at hp
    rw [hp]
    exact hv
  | cons q t ih =>
    intro p hp
    rw [insertH] at hp
    by_cases hq : keyEqb q.1 k = true
    · rw [if_pos hq] at hp
      rcases List.mem_cons.mp hp with h1 | h1
      · rw [h1]
        exact hv
      · exact hall p (List.mem_cons_of_mem q h1)
    · rw [if_neg hq] at hp
      rcases List.mem_cons.mp hp with h1 | h1
      · rw [h1]
        exact hall q (List.mem_cons_self q t)
      · exact ih (fun p2 hp2 => hall p2 (List.mem_cons_of_mem q hp2)) p h1

theorem decodeAux {r : Record}
    (hall : ∀ p ∈ r.headers.headers, utf8Valid p.2 = true) (k : WarcHeader) :
    (match lookupH k r.headers.headers with
     | some v => utf8Valid v
     | none => true) = true := by
  cases hl : lookupH k r.headers.headers with
  | none => rfl
  | some w =>
    obtain ⟨p, hp, hpv⟩ := lookupH_mem hl
    show utf8Valid w = true
    rw [← hpv]
    exact hall p hp

theorem headerDecodes_of_allV {r : Record}
    (hall : ∀ p ∈ r.headers.headers, utf8Valid p.2 = true) (k : WarcHeader) :
    r.headerDecodes k = true := by
  cases k with
  | contentLength => rfl
  | recordID => rfl
  | warcType => rfl
  | date => rfl
  | truncated => exact decodeAux hall .truncated
  | targetURI => exact decodeAux hall .targetURI
  | other name => exact decodeAux hall (.other name)

theorem setHeader_preserves_allV {r : Record} {k : WarcHeader} {v : Bytes}
    {old : Option Bytes} {r' : Record} (hv : utf8Valid v = true)
    (h : r.setHeader k v = .ok (old, r'))
    (hall : ∀ p ∈ r.headers.headers, utf8Valid p.2 = true) :
    ∀ p ∈ r'.headers.headers, utf8Valid p.2 = true := by
  cases k with
  | date =>
    have h2 : (match Record.parse_record_date v with
        | .error e => .error e
        | .ok d => .ok (some (toRfc3339Secs r.recordDate),
            { r with recordDate := d })) = Except.ok (old, r') := h
    cases hpd : Record.parse_record_date v with
    | error e =>
      rw [hpd] at h2
      exact absurd h2 Except.noConfusion
    | ok d =>
      rw [hpd] at h2
      injection h2 with hpr
      rw [Prod.mk.injEq] at hpr
      rw [← hpr.2]
      exact hall
  | recordID =>
    injection h with hpr
    rw [Prod.mk.injEq] at hpr
    rw [← hpr.2]
    exact hall
  | warcType =>
    injection h with hpr
    rw [Prod.mk.injEq] at hpr
    rw [← hpr.2]
    exact hall
  | truncated =>
    injection h with hpr
    rw [Prod.mk.injEq] at hpr
    rw [← hpr.2]
    exact hall
  | contentLength =>
    have h2 : (match Record.parse_content_length v with
        | .error e => .error e
        | .ok n =>
          if n ≠ r.content_length then
            Except.error (.malformedHeader .contentLength
              "content length != body size")
          else .ok (some v, r)) = Except.ok (old, r') := h
    cases hpc : Record.parse_content_length v with
    | error e =>
      rw [hpc] at h2
      exact absurd h2 Except.noConfusion
    | ok n =>
      rw [hpc] at h2
      have h3 : (if n ≠ r.content_length then
          (Except.error (.malformedHeader .contentLength
            "content length != body size") :
            Except WarcError (Option Bytes × Record))
        else .ok (some v, r)) = Except.ok (old, r') := h2
      by_cases hn : n ≠ r.content_length
      · rw [if_pos hn] at h3
        exact absurd h3 Except.noConfusion
      · rw [if_neg hn] at h3
        injection h3 with hpr
        rw [Prod.mk.injEq] at hpr
        rw [← hpr.2]
        exact hall
  | targetURI =>
    injection h with hpr
    rw [Prod.mk.injEq] at hpr
    rw [← hpr.2]
    exact allV_insertH hall hv .targetURI
  | other name =>
    injection h with hpr
    rw [Prod.mk.injEq] at hpr
    rw [← hpr.2]
    exact allV_insertH hall hv (.other name)

theorem applyOp_preserves_allV {r : Record} (op : RecOp)
    (hall : ∀ p ∈ r.headers.headers, utf8Valid p.2 = true) :
    ∀ p ∈ (r.applyOp op).headers.headers, utf8Valid p.2 = true := by
  cases op with
  | replaceBody b => exact hall
  | mutBody b =>
    show ∀ p ∈ ((if b.length = r.body.length then { r with body := b } else r) :
        Record).headers.headers, utf8Valid p.2 = true
    by_cases hb : b.length = r.body.length
    · rw [if_pos hb]
      exact hall
    · rw [if_neg hb]
      exact hall
  | setHeaderOp k v =>
    show ∀ p ∈ ((if utf8Valid v = true then
        match r.setHeader k v with
        | .ok (_, r') => r'
        | .error _ => r
      else r) : Record).headers.headers, utf8Valid p.2 = true
    by_cases hv : utf8Valid v = true
    · rw [if_pos hv]
      cases hset : r.setHeader k v with
      | ok pr =>
        obtain ⟨old, r'⟩ := pr
        exact setHeader_preserves_allV hv hset hall
      | error e => exact hall
    · rw [if_neg hv]
      exact hall
  | setDate d => exact hall
  | setWarcId s2 => exact hall
  | setWarcVersion s2 => exact hall
  | setWarcType t => exact hall
  | setTruncatedTypeOp t => exact hall
  | clearTruncatedType => exact hall

theorem applyOps_preserves_allV :
    ∀ (ops : List RecOp) (r : Record),
      (∀ p ∈ r.headers.headers, utf8Valid p.2 = true) →
      ∀ p ∈ (Record.applyOps r ops).headers.headers, utf8Valid p.2 = true := by
  intro ops
  induction ops with
  | nil => intro r hall; exact hall
  | cons op t ih =>
    intro r hall
    exact ih (r.applyOp op) (applyOp_preserves_allV op hall)

theorem builderOp_preserves_allV {b : RecordBuilder} (op : BOp)
    (hall : ∀ p ∈ b.value.headers.headers, utf8Valid p.2 = true) :
    ∀ p ∈ (b.applyOp op).value.headers.headers, utf8Valid p.2 = true := by
  cases op with
  | bodyOp body => exact hall
  | dateOp d => exact hall
  | warcIdOp s2 => exact hall
  | versionOp s2 => exact hall
  | warcTypeOp t => exact hall
  | truncatedTypeOp t => exact hall
  | headerOp k v =>
    show ∀ p ∈ (RecordBuilder.header b k v).value.headers.headers,
      utf8Valid p.2 = true
    rw [RecordBuilder.header]
    by_cases hv : utf8Valid v = true
    · rw [if_pos hv]
      cases hset : b.value.setHeader k v with
      | ok pr =>
        obtain ⟨old, r'⟩ := pr
        exact setHeader_preserves_allV hv hset hall
      | error e => exact hall
    · rw [if_neg hv]
      exact hall

theorem builderOps_preserves_allV :
    ∀ (ops : List BOp) (b : RecordBuilder),
      (∀ p ∈ b.value.headers.headers, utf8Valid p.2 = true) →
      ∀ p ∈ (RecordBuilder.applyOps b ops).value.headers.headers,
        utf8Valid p.2 = true := by
  intro ops
  induction ops with
  | nil => intro b hall; exact hall
  | cons op t ih =>
    intro b hall
    exact ih (b.applyOp op) (builderOp_preserves_allV op hall)

/-- C7 (amended): for typed records reachable through fresh creation,
the builder, and any sequence of setters — excluding `TryFrom` from an
arbitrary raw record, which can smuggle non-UTF-8 extension values in —
every residual header value is valid UTF-8, so the header accessor's
decode never fails. -/
theorem c7_utf8_without_tryfrom :
    (∀ (now : DateTimeUtc) (freshId : Bytes) (ops : List RecOp) (k : WarcHeader),
      Record.headerDecodes (Record.applyOps (Record.mkDefault now freshId) ops)
        k = true) ∧
    (∀ (now : DateTimeUtc) (freshId : Bytes) (bops : List BOp) (r : Record),
      RecordBuilder.build
          (RecordBuilder.applyOps (RecordBuilder.mkDefault now freshId) bops) =
        .ok r →
      ∀ k, r.headerDecodes k = true) := by
  constructor
  · intro now freshId ops k
    refine headerDecodes_of_allV ?_ k
    refine applyOps_preserves_allV ops (Record.mkDefault now freshId) ?_
    intro p hp
    exact absurd hp (List.not_mem_nil p)
  · intro now freshId bops r hbuild k
    have hall : ∀ p ∈ (RecordBuilder.applyOps (RecordBuilder.mkDefault now freshId)
        bops).value.headers.headers, utf8Valid p.2 = true := by
      refine builderOps_preserves_allV bops (RecordBuilder.mkDefault now freshId) ?_
      intro p hp
      exact absurd hp (List.not_mem_nil p)
    rw [RecordBuilder.build] at hbuild
    cases hle : (RecordBuilder.applyOps (RecordBuilder.mkDefault now freshId)
        bops).lastError with
    | some e =>
      rw [hle] at hbuild
      exact absurd hbuild Except.noConfusion
    | none =>
      rw [hle] at hbuild
      injection hbuild with hr
      rw [← hr]
      exact headerDecodes_of_allV hall k

/-- Closed witness for C7's amended invariant: a setter-built record and
a builder-built record, each with one extension header, decode that
header. -/
theorem c7_witness :
    Record.headerDecodes
      (Record.applyOps (Record.mkDefault dT idT)
        [.setHeaderOp .targetURI (strB "https://x")]) .targetURI = true ∧
    rW7.headerDecodes .targetURI = true :=
  ⟨c7_utf8_without_tryfrom.1 dT idT [.setHeaderOp .targetURI (strB "https://x")]
      .targetURI,
   c7_utf8_without_tryfrom.2 dT idT [.headerOp .targetURI (strB "https://x")]
      rW7 rfl .targetURI⟩



theorem header_notADate_step (b : RecordBuilder) :
    b.header .date (strB "not-a-date") =
      { value := b.value
        broken := insertH .date (strB "not-a-date") b.broken
        lastError := some (.malformedHeader .date "not an ISO 8601 datestamp") } := by
  rw [RecordBuilder.header]
  rw [if_pos (show utf8Valid (strB "not-a-date") = true from rfl)]
  have hset : b.value.setHeader .date (strB "not-a-date") =
      .error (.malformedHeader .date "not an ISO 8601 datestamp") := by
    show (match Record.parse_record_date (strB "not-a-date") with
      | .error e => Except.error e
      | .ok d => .ok (some (toRfc3339Secs b.value.recordDate),
          { b.value with recordDate := d })) = _
    rw [show Record.parse_record_date (strB "not-a-date") =
      .error (.malformedHeader .date "not an ISO 8601 datestamp") from rfl]
  rw [hset]

theorem c5_inv_step (b : RecordBuilder) (op : BOp)
    (hErr : b.lastError =
      some (.malformedHeader .date "not an ISO 8601 datestamp"))
    (hDate : lookupH .date b.broken = some (strB "not-a-date"))
    (hNodup : nodupKeysH b.broken = true)
    (hf : bOpFails b op = false)
    (hd : bOpSuccDate b op = false) :
    (b.applyOp op).lastError =
      some (.malformedHeader .date "not an ISO 8601 datestamp") ∧
    lookupH .date (b.applyOp op).broken = some (strB "not-a-date") ∧
    nodupKeysH (b.applyOp op).broken = true := by
  cases op with
  | bodyOp x => exact ⟨hErr, hDate, hNodup⟩
  | dateOp x => exact ⟨hErr, hDate, hNodup⟩
  | warcIdOp x => exact ⟨hErr, hDate, hNodup⟩
  | versionOp x => exact ⟨hErr, hDate, hNodup⟩
  | warcTypeOp x => exact ⟨hErr, hDate, hNodup⟩
  | truncatedTypeOp x => exact ⟨hErr, hDate, hNodup⟩
  | headerOp k v =>
    simp only [bOpFails] at hf
    simp only [bOpSuccDate, bOpFails] at hd
    by_cases hv : utf8Valid v = true
    · rw [if_pos hv] at hf hd
      cases hset : b.value.setHeader k v with
      | error e =>
        rw [hset] at hf
        exact absurd hf Bool.noConfusion
      | ok pr =>
        rw [hset] at hd
        simp only [Bool.not_false, Bool.and_true] at hd
        have hred : b.applyOp (.headerOp k v) =
            { value := pr.2, broken := eraseH k (insertH k v b.broken),
              lastError := b.lastError } := by
          show b.header k v = _
          rw [RecordBuilder.header]
          rw [if_pos hv, hset]
        rw [hred]
        refine ⟨hErr, ?_, nodupKeysH_eraseH (nodupKeysH_insertH hNodup v)⟩
        show lookupH .date (eraseH k (insertH k v b.broken)) = _
        rw [lookupH_eraseH_ne hd, lookupH_insertH_ne hd]
        exact hDate
    · rw [if_neg hv] at hf
      exact absurd hf Bool.noConfusion

theorem c5_inv_trace :
    ∀ (ops : List BOp) (b : RecordBuilder),
      b.lastError = some (.malformedHeader .date "not an ISO 8601 datestamp") →
      lookupH .date b.broken = some (strB "not-a-date") →
      nodupKeysH b.broken = true →
      noFailingFrom b ops = true →
      noSuccDateFrom b ops = true →
      (RecordBuilder.applyOps b ops).lastError =
        some (.malformedHeader .date "not an ISO 8601 datestamp") ∧
      lookupH .date (RecordBuilder.applyOps b ops).broken =
        some (strB "not-a-date") ∧
      nodupKeysH (RecordBuilder.applyOps b ops).broken = true := by
  intro ops
  induction ops with
  | nil =>
    intro b hErr hDate hNodup _ _
    exact ⟨hErr, hDate, hNodup⟩
  | cons op t ih =>
    intro b hErr hDate hNodup hnf hnd
    rw [noFailingFrom, Bool.and_eq_true] at hnf
    rw [noSuccDateFrom, Bool.and_eq_true] at hnd
    have hf : bOpFails b op = false := by
      cases hq : bOpFails b op with
      | false => rfl
      | true =>
        rw [hq] at hnf
        exact absurd hnf.1 (by decide)
    have hd : bOpSuccDate b op = false := by
      cases hq : bOpSuccDate b op with
      | false => rfl
      | true =>
        rw [hq] at hnd
        exact absurd hnd.1 (by decide)
    obtain ⟨h1, h2, h3⟩ := c5_inv_step b op hErr hDate hNodup hf hd
    exact ih (b.applyOp op) h1 h2 h3 hnf.2 hnd.2

/-- C5 (amended): for a builder on which `header(Date, "not-a-date")`
was the most recent failing header assignment and for which no
subsequent assignment for the date key succeeded: `build` returns the
date fault, while `build_raw` succeeds and its raw header map contains
the literal bytes `not-a-date` under the date key, overwriting the date
value the typed synthesis produced. -/
theorem c5_builder_date_fault (b : RecordBuilder) (ops : List BOp)
    (hNodup : nodupKeysH b.broken = true)
    (hnf : noFailingFrom (b.header .date (strB "not-a-date")) ops = true)
    (hnd : noSuccDateFrom (b.header .date (strB "not-a-date")) ops = true) :
    RecordBuilder.build
        (RecordBuilder.applyOps (b.header .date (strB "not-a-date")) ops) =
      .error (.malformedHeader .date "not an ISO 8601 datestamp") ∧
    lookupH .date
        (RecordBuilder.applyOps (b.header .date (strB "not-a-date"))
          ops).buildRaw.1.headers =
      some (strB "not-a-date") := by
  have hbase := header_notADate_step b
  have hErr : (b.header .date (strB "not-a-date")).lastError =
      some (.malformedHeader .date "not an ISO 8601 datestamp") := by
    rw [hbase]
  have hDate : lookupH .date (b.header .date (strB "not-a-date")).broken =
      some (strB "not-a-date") := by
    rw [hbase]
    exact lookupH_insertH_eq (keyEqb_refl .date) _ b.broken
  have hNodup2 : nodupKeysH (b.header .date (strB "not-a-date")).broken = true := by
    rw [hbase]
    exact nodupKeysH_insertH hNodup _
  obtain ⟨hE, hD, hN⟩ := c5_inv_trace ops _ hErr hDate hNodup2 hnf hnd
  constructor
  · rw [RecordBuilder.build, hE]
  · rw [RecordBuilder.buildRaw]
    show lookupH .date (extendH _ (RecordBuilder.applyOps
      (b.header .date (strB "not-a-date")) ops).broken) = _
    rw [lookupH_extendH .date _ _ hN, hD]

/-- Closed witness for the C5 amended theorem: a default builder, the
failing date assignment, then one body operation. -/
theorem c5_witness :
    RecordBuilder.build
        (RecordBuilder.applyOps
          ((RecordBuilder.mkDefault dT idT).header .date (strB "not-a-date"))
          [.bodyOp (strB "xyz")]) =
      .error (.malformedHeader .date "not an ISO 8601 datestamp") ∧
    lookupH .date
        (RecordBuilder.applyOps
          ((RecordBuilder.mkDefault dT idT).header .date (strB "not-a-date"))
          [.bodyOp (strB "xyz")]).buildRaw.1.headers =
      some (strB "not-a-date") :=
  c5_builder_date_fault (RecordBuilder.mkDefault dT idT) [.bodyOp (strB "xyz")]
    rfl rfl rfl



end RWarc
